import Mathlib

/-!
Verification development for the StegVerse-Labs/Site ingestion scripts.

The Python scripts under `scripts/`, `ingest/`, `ingestion/`, `cfp/` and
`tools/` are shallowly embedded as executable Lean definitions.  Text is
modelled as `String` / `List Char`, Python dicts as association lists,
Python exceptions as `Except String`, and the network / environment as
explicit function parameters.  Each definition is translated from the
named source function; theorems about the frozen claims follow at the end
of the file.
-/

namespace StegSite

/-! ## Text primitives modelling Python `str` operations -/

/-- The character `{` (written via its code point to keep string literals brace-free). -/
def lb : Char := Char.ofNat 123

/-- The character `}`. -/
def rb : Char := Char.ofNat 125

/-- Python `needle in hay` (substring containment) over character lists. -/
def listContainsSub (hay needle : List Char) : Bool :=
  needle.isPrefixOf hay ||
    match hay with
    | [] => false
    | _ :: t => listContainsSub t needle

/-- Python `needle in hay` on strings. -/
def strContainsB (hay needle : String) : Bool :=
  listContainsSub hay.data needle.data

/-- Python `s.lower()` (ASCII case folding suffices for the header keywords used). -/
def pyLower (s : String) : String :=
  ⟨s.data.map Char.toLower⟩

/-- Python `s.isdigit()`: non-empty and all characters are digits. -/
def pyIsDigit (s : String) : Bool :=
  !s.data.isEmpty && s.data.all Char.isDigit

/-- Value of a digit string, used to model Python `int(s)` on inputs that passed `isdigit`. -/
def digitsToNat (l : List Char) : Nat :=
  l.foldl (fun acc c => acc * 10 + (c.toNat - 48)) 0

/-- Python `int(s)` under an `isdigit` guard. -/
def pyInt (s : String) : Nat :=
  digitsToNat s.data

/-- Python `int(s)` without a guard: `some` exactly when `s` is a digit string
(the scripts wrap the unguarded calls in `try/except` and skip the row otherwise). -/
def pyIntOpt (s : String) : Option Nat :=
  if pyIsDigit s then some (pyInt s) else none

/-- Python `s.split()` (split on whitespace runs, dropping empty pieces). -/
def pyWords (s : String) : List String :=
  ((s.data.splitOnP Char.isWhitespace).filter (fun w => !w.isEmpty)).map (fun w => ⟨w⟩)

/-! ## Python `sorted(key=...)`: stable ascending insertion sort by an integer key

`sorted(..., reverse=True)` on integer keys coincides with a stable ascending
sort by the negated key, which is how the descending sorts are modelled. -/

/-- Insert `x` after every element of the (already key-sorted) accumulator whose
key is `≤ key x`; this reproduces the stability of Python's sort. -/
def insertByKey (key : α → Int) (x : α) : List α → List α
  | [] => [x]
  | y :: ys => if key y ≤ key x then y :: insertByKey key x ys else x :: y :: ys

/-- Python `sorted(l, key=key)`: stable, ascending by `key`. -/
def pySortByKey (key : α → Int) (l : List α) : List α :=
  l.foldl (fun acc x => insertByKey key x acc) []

/-! ## Normalized ranking records -/

/-- One ranking entry as built by the rankings handlers
(`spot_scenarios`, always the empty list in every script, is omitted). -/
structure RankEntry where
  seed : Nat
  team : String
  record : String
  conference : String
  status : String
  lock_reason : String
  deriving DecidableEq, Repr

/-! ## HTML payload model

A fetched page is abstracted as the list of its `<table>` elements, each a
list of `<tr>` rows, each a list of cells that are either header (`<th>`) or
data (`<td>`) cells carrying their stripped text.  `find_all` traversals in
the scripts become list traversals in document order. -/

/-- One table cell: a `<th>` (when `isTh`) or `<td>` with its stripped text. -/
structure HCell where
  isTh : Bool
  text : String
  deriving DecidableEq, Repr

/-- One `<table>`: its rows in document order. -/
structure HTable where
  rows : List (List HCell)
  deriving DecidableEq, Repr

/-- `table.find_all("th")`: all header-cell texts of a table in document order. -/
def tableThs (t : HTable) : List String :=
  ((t.rows.map (fun r => r.filter (fun c => c.isTh))).flatten).map (fun c => c.text)

/-- `row.find_all("td")`: the data-cell texts of one row. -/
def rowTds (r : List HCell) : List String :=
  (r.filter (fun c => !c.isTh)).map (fun c => c.text)

/-- `row.find_all(["td", "th"])`: all cell texts of one row. -/
def rowAllCells (r : List HCell) : List String :=
  r.map (fun c => c.text)

/-- Python `cells[i] if len(cells) > i else ""`. -/
def cellD (cells : List String) (i : Nat) : String :=
  cells.getD i ""

/-! ## Parsers

`ingest/universal_ingest.py` `handle_cfp_rankings_html`,
`scripts/ingest_sports.py` `fetch_cfp_rankings_official` (its parsing part),
and `tools/cfp/update_cfp_data.py` `_parse_cfp_rankings`.
The `Except String` result type models Python exceptions: `.error` is a raised
exception, `.ok` a normal return. -/

/-- Table search of `handle_cfp_rankings_html`: first table whose lowercased
`th` texts contain a header with "rank" and one with "school" or "team". -/
def findCfpTable (tables : List HTable) : Option HTable :=
  tables.find? (fun t =>
    let hs := (tableThs t).map pyLower
    (hs.any (fun h => strContainsB h "rank")) &&
      (hs.any (fun h => strContainsB h "school" || strContainsB h "team")))

/-- Row loop body of `handle_cfp_rankings_html` (and of
`fetch_cfp_rankings_official`, which reads the same cell positions):
skip rows whose first cell is not a digit string, else build an entry. -/
def parseCfpRow (cells : List String) : Option RankEntry :=
  match cells with
  | [] => none
  | c0 :: _ =>
    if pyIsDigit c0 then
      some { seed := pyInt c0, team := cellD cells 1, record := cellD cells 2,
             conference := cellD cells 3, status := "in_play", lock_reason := "" }
    else none

/-- `handle_cfp_rankings_html` of `ingest/universal_ingest.py` (its parsing part,
applied to the already-fetched tables): when no matching table is found it logs
a warning and returns the empty list — it does not raise. -/
def handle_cfp_rankings_html (tables : List HTable) : Except String (List RankEntry) :=
  match findCfpTable tables with
  | none => .ok []
  | some t => .ok (t.rows.filterMap (fun r => parseCfpRow (rowTds r)))

/-- Parsing part of `fetch_cfp_rankings_official` of `scripts/ingest_sports.py`:
raises on no tables, on no suitable table, and on zero parsed rows. -/
def fetch_cfp_rankings_official (tables : List HTable) : Except String (List RankEntry) :=
  if tables.isEmpty then
    .error "No tables found on CFP rankings page."
  else
    match tables.find? (fun t => !t.rows.isEmpty && decide (5 < t.rows.length)) with
    | none => .error "No suitable table found in CFP page HTML."
    | some t =>
      let rankings := (t.rows.drop 1).filterMap (fun r => parseCfpRow (rowAllCells r))
      if rankings.isEmpty then .error "Parsed 0 CFP rankings rows from official page."
      else .ok rankings

/-- Table search of `_parse_cfp_rankings` of `tools/cfp/update_cfp_data.py`:
headers must contain "rank" and "team". -/
def findUpdateTable (tables : List HTable) : Option HTable :=
  tables.find? (fun t =>
    let hs := (tableThs t).map pyLower
    (hs.any (fun h => strContainsB h "rank")) && (hs.any (fun h => strContainsB h "team")))

/-- Row loop body of `_parse_cfp_rankings`: rows need at least two cells, the
seed is `int(cells[0].split()[0])` guarded by `try/except`. -/
def parseUpdateRow (cells : List String) : Option RankEntry :=
  if cells.length < 2 then none
  else
    match pyIntOpt ((pyWords (cellD cells 0)).getD 0 "") with
    | none => none
    | some seed =>
      some { seed := seed, team := cellD cells 1, record := cellD cells 2,
             conference := cellD cells 3, status := "in_play", lock_reason := "" }

/-- `_parse_cfp_rankings` of `tools/cfp/update_cfp_data.py`: returns the empty
list when the table is missing; keeps only seeds `≤ 12`. -/
def update_parse_cfp_rankings (tables : List HTable) : Except String (List RankEntry) :=
  match findUpdateTable tables with
  | none => .ok []
  | some t =>
    .ok ((t.rows.filterMap (fun r => parseUpdateRow (rowTds r))).filter
      (fun e => decide (e.seed ≤ 12)))

/-! ## Python dicts as association lists -/

/-- Python `d[k] = v`: update in place when the key exists, else append
(dict insertion order). -/
def setAssoc (l : List (String × α)) (k : String) (v : α) : List (String × α) :=
  if l.any (fun kv => kv.1 == k) then
    l.map (fun kv => if kv.1 == k then (k, v) else kv)
  else l ++ [(k, v)]

/-- Python `d.get(k)`. -/
def getAssoc (l : List (String × α)) (k : String) : Option α :=
  (l.find? (fun kv => kv.1 == k)).map (fun kv => kv.2)

/-- The canonical JSON document, as far as the claims need it: named fields
holding record lists, plus the optional `last_updated` key.  Field payloads of
all shapes (rankings, polls, conferences, games) are modelled uniformly as
ranking-record lists; the claims proved do not depend on the element shape. -/
structure JDoc where
  fields : List (String × List RankEntry)
  last_updated : Option Int
  deriving DecidableEq, Repr

/-- The empty document `{}`. -/
def emptyJDoc : JDoc := ⟨[], none⟩

/-! ## `ingestion/ingest_runner.py` -/

/-- One configured source of `universal_config.json` as read by `run_for_sport`
(`enabled` defaults to `True`, `priority` to `999`). -/
structure RSource where
  id : String
  enabled : Option Bool
  priority : Option Int
  deriving DecidableEq, Repr

/-- `s.get("enabled", True)`. -/
def rsEnabled (s : RSource) : Bool := s.enabled.getD true

/-- `s.get("priority", 999)`. -/
def rsPriority (s : RSource) : Int := s.priority.getD 999

/-- Source selection of `run_for_sport`: keep enabled sources, sort by
priority ascending (lowest number = highest priority), stable. -/
def selectSources (sources : List RSource) : List RSource :=
  pySortByKey rsPriority (sources.filter rsEnabled)

/-- The sequential fallback loop: try each source in order, stop at the first
one whose fetch-and-parse does not raise.  Returns the ids fetched, in fetch
order, and the winning id with its data. -/
def attemptAll (ident : σ → String) (att : σ → Except String α) :
    List σ → List String × Option (String × α)
  | [] => ([], none)
  | s :: rest =>
    match att s with
    | .ok d => ([ident s], some (ident s, d))
    | .error _ =>
      let (tr, w) := attemptAll ident att rest
      (ident s :: tr, w)

/-- Sport configuration consumed by `run_for_sport`. -/
structure SportCfg where
  enabled : Option Bool
  output_file : Option String
  sources : List RSource
  deriving Repr

/-- Result of `run_for_sport`: the returned boolean, the fetch trace
(ids passed to `fetch_from_source`, in call order), and the winning source id. -/
structure SportRun where
  ok : Bool
  trace : List String
  winner : Option String
  deriving DecidableEq, Repr

/-- `run_for_sport` of `ingestion/ingest_runner.py`, with `fetch_from_source`
(network + dispatch) abstracted as `att`.  Note that a disabled sport returns
`False`, like a failing one. -/
def run_for_sport (att : RSource → Except String α) (cfg : SportCfg) : SportRun :=
  if !(cfg.enabled.getD false) then ⟨false, [], none⟩
  else if cfg.output_file.isNone || cfg.sources.isEmpty then ⟨false, [], none⟩
  else
    match attemptAll RSource.id att (selectSources cfg.sources) with
    | (tr, some (w, _)) => ⟨true, tr, some w⟩
    | (tr, none) => ⟨false, tr, none⟩

/-- `main` of `ingestion/ingest_runner.py`: exit 0 iff `run_for_sport`
returned `True` for every configured sport. -/
def ingest_runner_main (att : RSource → Except String α) (sports : List SportCfg) : Int :=
  if sports.all (fun cfg => (run_for_sport att cfg).ok) then 0 else 1

/-! ## `ingest/universal_ingest.py` -/

/-- One configured source of a dataset (only its id is observable here;
URL and fetching are inside the abstracted handler call). -/
structure USource where
  id : String
  deriving DecidableEq, Repr

/-- The `output:` block of a dataset; `pathName` models `out_path.name`. -/
structure UOutput where
  pathName : String
  field : String
  deriving DecidableEq, Repr

/-- One dataset of `ingest_config.yml` (`enabled` defaults to `False`,
`priority`, used only for the processing order in `main`, to `0`). -/
structure UDataset where
  id : String
  enabled : Option Bool
  kind : String
  output : UOutput
  priority : Option Int
  primary_sources : List USource
  backup_sources : List USource
  deriving DecidableEq, Repr

/-- The keys of the `HANDLERS` table. -/
def HANDLERS_kinds : List String :=
  ["cfp_rankings_html", "ncaaf_standings_html", "ncaaf_polls_html", "ncaaf_games_html"]

/-- `handle_ncaaf_polls_html`, at the granularity the claims need: every
source in the list is fetched in order (a poll object is built per source,
concatenated here); a raised fetch error aborts the whole handler.  Returns
the handler outcome and the ids fetched. -/
def pollsHandler (att : USource → Except String (List RankEntry)) :
    List USource → Except String (List RankEntry) × List String
  | [] => (.ok [], [])
  | s :: rest =>
    match att s with
    | .error e => (.error e, [s.id])
    | .ok items =>
      match pollsHandler att rest with
      | (.ok more, tr) => (.ok (items ++ more), s.id :: tr)
      | (.error e, tr) => (.error e, s.id :: tr)

/-- Result of `run_dataset`: the returned boolean, the document as persisted
(unchanged when nothing was written), whether a write happened, and the fetch
trace of source ids. -/
structure RunOut where
  ok : Bool
  doc : JDoc
  wrote : Bool
  trace : List String
  deriving DecidableEq, Repr

/-- The `data` acquisition step of `run_dataset`: the kind `ncaaf_polls_html`
calls the handler once on all primary sources (a raised error sets
`did_error`); every other kind tries `primary_sources + backup_sources` in
order and stops at the first call that does not raise (any returned list,
`[]` included, is `not None` and breaks the loop).  Returns the data (`none`
models Python's `data is None`), the `did_error` flag, and the fetch trace. -/
def run_dataset_step (att : USource → Except String (List RankEntry)) (ds : UDataset) :
    Option (List RankEntry) × Bool × List String :=
  if ds.kind == "ncaaf_polls_html" then
    match pollsHandler att ds.primary_sources with
    | (.ok items, tr) => (some items, false, tr)
    | (.error _, tr) => (none, true, tr)
  else
    match attemptAll USource.id att (ds.primary_sources ++ ds.backup_sources) with
    | (tr, some (_, d)) => (some d, false, tr)
    | (tr, none) => (none, false, tr)

/-- Timestamp maintenance of `run_dataset`: after `doc[out_field] = data`,
`last_updated` is set to the current time when the document already has that
key or the output file is `cfp-data.json`. -/
def persistStamp (doc1 : JDoc) (t : Int) (pathName : String) : JDoc :=
  if doc1.last_updated.isSome || pathName == "cfp-data.json" then
    { doc1 with last_updated := some t }
  else doc1

/-- `run_dataset` of `ingest/universal_ingest.py`.  `att` is the handler call
for one source (fetch + parse; `.error` is a raised exception), `t` the value
of `int(time.time())`, `prior` the document loaded from the output path. -/
def run_dataset (att : USource → Except String (List RankEntry)) (t : Int)
    (dryRun : Bool) (prior : JDoc) (ds : UDataset) : RunOut :=
  if !(ds.enabled.getD false) then ⟨true, prior, false, []⟩
  else if !(HANDLERS_kinds.contains ds.kind) then ⟨false, prior, false, []⟩
  else if (ds.primary_sources ++ ds.backup_sources).isEmpty then ⟨false, prior, false, []⟩
  else
    match run_dataset_step att ds with
    | (none, _, tr) => ⟨false, prior, false, tr⟩
    | (some data, didError, tr) =>
      if dryRun then ⟨!didError, prior, false, tr⟩
      else
        ⟨!didError,
         persistStamp { prior with fields := setAssoc prior.fields ds.output.field data }
           t ds.output.pathName,
         true, tr⟩

/-- `main` of `ingest/universal_ingest.py`: sort datasets by priority
descending (modelled as an ascending stable sort by the negated key), run each,
exit 0 iff no dataset run returned `False`.  `prior` models
`load_json_file(out_path)` per output file. -/
def universal_main (att : USource → Except String (List RankEntry)) (t : Int)
    (dryRun : Bool) (prior : String → JDoc) (datasets : List UDataset) : Int :=
  let ds := pySortByKey (fun d => -(d.priority.getD 0)) datasets
  if ds.isEmpty then 0
  else if ds.all (fun d => (run_dataset att t dryRun (prior d.output.pathName) d).ok) then 0
  else 1

/-- The value `run_dataset` returns, as a function of the configuration and the
per-source outcomes only (it does not depend on the prior document, the time,
or `dry_run`): `True` for a disabled dataset; `False` for an unknown kind or an
empty source list; else success of the polls handler, respectively existence of
a first non-raising source. -/
def datasetOk (att : USource → Except String (List RankEntry)) (ds : UDataset) : Bool :=
  if !(ds.enabled.getD false) then true
  else if !(HANDLERS_kinds.contains ds.kind) then false
  else if (ds.primary_sources ++ ds.backup_sources).isEmpty then false
  else if ds.kind == "ncaaf_polls_html" then (pollsHandler att ds.primary_sources).1.isOk
  else (attemptAll USource.id att (ds.primary_sources ++ ds.backup_sources)).2.isSome

/-! ## `scripts/ingest_sports.py` (rankings ordering) -/

/-- The ordering step of `build_ncaaf_2025_state`:
`sorted(rankings, key=lambda r: r.get("seed", 999))` (the seed is always
present on entries built by the scrapers). -/
def build_ncaaf_sort_rankings (l : List RankEntry) : List RankEntry :=
  pySortByKey (fun e => (e.seed : Int)) l

/-! ## `cfp/cfp_ingest.py` -/

/-- The payload built by `build_payload_from_snapshot`: the normalized content
together with the `last_updated` stamp `now_iso()` taken at build time.
Equality models equality of the `json.dumps(..., sort_keys=True)` texts
(canonical serialization is injective on this model). -/
structure CfpPayload where
  core : List RankEntry
  last_updated : Int
  deriving DecidableEq, Repr

/-- Build the payload at time `t`. -/
def build_payload (core : List RankEntry) (t : Int) : CfpPayload := ⟨core, t⟩

/-- Persistence step of `main` of `cfp/cfp_ingest.py`: reload the old file,
skip the write when the serialized texts coincide, else overwrite.  Returns
the resulting file content and whether a write happened. -/
def cfp_ingest_commit (old : Option CfpPayload) (core : List RankEntry) (t : Int) :
    CfpPayload × Bool :=
  let newP := build_payload core t
  match old with
  | some o => if o = newP then (o, false) else (newP, true)
  | none => (newP, true)

/-! ## `scripts/fetch_cfp_data.py` (rankings merge step of `main`) -/

/-- The fallback of `main` of `scripts/fetch_cfp_data.py`: when the scrape
produced nothing and the existing document has a `rankings` key, reuse the
existing value. -/
def fetch_cfp_data_rankings (scraped : List RankEntry)
    (existing : List (String × List RankEntry)) : List RankEntry :=
  if scraped.isEmpty && existing.any (fun kv => kv.1 == "rankings") then
    (getAssoc existing "rankings").getD []
  else scraped

/-! ## Source selection: `scripts/cfp_sources.py` and `scripts/cfp_source_config.py` -/

/-- One source of `data/cfp_sources.json` (`enabled` defaults to `True`;
the priority default differs between the two selection functions). -/
structure CSource where
  id : String
  enabled : Option Bool
  kind : Option String
  season : Option Int
  priority : Option Int
  deriving DecidableEq, Repr

/-- The per-source filter of `list_sources` of `scripts/cfp_sources.py`:
skip disabled sources, sources of another kind, and sources pinned to a
different season. -/
def list_sources_keeps (kind : Option String) (season : Option Int) (s : CSource) : Bool :=
  (s.enabled.getD true) &&
    (match kind with | none => true | some k => s.kind == some k) &&
    (match season with | none => true | some y => s.season == none || s.season == some y)

/-- `list_sources` of `scripts/cfp_sources.py`: filter, then sort by
`priority` (default `0`) with `reverse=True` — higher priority value first
(modelled as a stable ascending sort by the negated key). -/
def list_sources (sources : List CSource) (kind : Option String) (season : Option Int) :
    List CSource :=
  pySortByKey (fun s => -(s.priority.getD 0)) (sources.filter (list_sources_keeps kind season))

/-- `get_sources` of `scripts/cfp_source_config.py`: keep enabled sources of a
section and sort by `priority` (default `999`) ascending — lower value first. -/
def get_sources (sources : List CSource) : List CSource :=
  pySortByKey (fun s => s.priority.getD 999) (sources.filter (fun s => s.enabled.getD true))

/-! ## Persistence: file-system operation traces

`save_json_file` (`ingest/universal_ingest.py`), `_save_data`
(`tools/cfp/update_cfp_data.py`) and `save_json`
(`scripts/cfp_ingest_standings_polls.py`) write a temporary file and rename
it over the target; `save_data` (`scripts/cfp_scrape.py`) opens the target
path directly.  Directory creation, irrelevant to the claims, is omitted. -/

/-- The file-system operations a save function issues, in order. -/
inductive FsOp where
  | write (path : String) (content : String)
  | rename (src dst : String)
  deriving DecidableEq, Repr

/-- `save_json_file` of `ingest/universal_ingest.py`:
`path.with_suffix(path.suffix + ".tmp")` appends `".tmp"` to the full name,
then `tmp.replace(path)` renames atomically. -/
def save_json_file_ops (path content : String) : List FsOp :=
  [.write (path ++ ".tmp") content, .rename (path ++ ".tmp") path]

/-- `_save_data` of `tools/cfp/update_cfp_data.py`: `tmp_path = path + ".tmp"`,
then `os.replace(tmp_path, path)`. -/
def update_save_data_ops (path content : String) : List FsOp :=
  [.write (path ++ ".tmp") content, .rename (path ++ ".tmp") path]

/-- `save_json` of `scripts/cfp_ingest_standings_polls.py` at the one path the
script writes, `DATA_PATH = data/cfp-data.json`:
`path.with_suffix(".tmp.json")` is `data/cfp-data.tmp.json`. -/
def save_json_sp_ops (content : String) : List FsOp :=
  [.write "data/cfp-data.tmp.json" content, .rename "data/cfp-data.tmp.json" "data/cfp-data.json"]

/-- `save_data` of `scripts/cfp_scrape.py`: opens `CFP_DATA_PATH` for writing
directly — no temporary file, no rename. -/
def save_data_ops (content : String) : List FsOp :=
  [.write "data/cfp-data.json" content]

/-- A file system: paths mapped to contents. -/
def FileSys : Type := List (String × String)

/-- Apply one operation.  A rename replaces the destination with the source's
content and removes the source (POSIX `rename`), atomically. -/
def applyFsOp (fs : FileSys) : FsOp → FileSys
  | .write p c => setAssoc fs p c
  | .rename s d =>
    match getAssoc fs s with
    | some c => setAssoc (List.filter (fun kv => !(kv.1 == s)) fs) d c
    | none => fs

/-- Apply a list of operations in order. -/
def applyFsOps (fs : FileSys) (ops : List FsOp) : FileSys :=
  ops.foldl applyFsOp fs

/-- Read a path. -/
def readFs (fs : FileSys) (p : String) : Option String :=
  getAssoc fs p

/-- Directory of a path: everything up to and including the last `/`. -/
def dirOf (p : String) : String :=
  ⟨((p.data.reverse.dropWhile (fun c => !(c == '/')))).reverse⟩

/-- The commit discipline the spec describes: exactly one write to a distinct
temporary path in the same directory, followed by an atomic rename over the
target. -/
def writesViaTempRename (target : String) (ops : List FsOp) : Prop :=
  ∃ tmp c, tmp ≠ target ∧ dirOf tmp = dirOf target ∧
    ops = [.write tmp c, .rename tmp target]

/-! ## Loading the prior document

`load_json_file` (`ingest/universal_ingest.py`) and `load_existing_data`
(`scripts/cfp_scrape.py`) wrap `json.load` in `try/except` and fall back to
`{}`; `load_json` (`scripts/cfp_ingest_standings_polls.py`) only checks
existence and lets a parse exception propagate. -/

/-- The state of the document file at run start. -/
inductive FileState where
  | absent
  | malformed
  | valid (d : JDoc)
  deriving DecidableEq, Repr

/-- `load_json_file` of `ingest/universal_ingest.py`: `{}` when absent, `{}`
(after a warning) when `json.load` raises. -/
def load_json_file : FileState → JDoc
  | .absent => emptyJDoc
  | .malformed => emptyJDoc
  | .valid d => d

/-- `load_existing_data` of `scripts/cfp_scrape.py`: same behavior. -/
def load_existing_data : FileState → JDoc
  | .absent => emptyJDoc
  | .malformed => emptyJDoc
  | .valid d => d

/-- `load_json` of `scripts/cfp_ingest_standings_polls.py`: `{}` when the file
is absent, but `json.load` is not guarded — malformed content raises out of
the function. -/
def load_json_sp : FileState → Except String JDoc
  | .absent => .ok emptyJDoc
  | .malformed => .error "json.decoder.JSONDecodeError"
  | .valid d => .ok d

/-! ## Header placeholder resolution: `_apply_env_in_headers`
(`scripts/cfp_source_config.py`)

Header values are character lists; the process environment is a partial map
from variable names to values, `os.getenv(name, "")` defaulting to the empty
string. -/

/-- `os.getenv(n, "")`. -/
def getenvD (env : List Char → Option (List Char)) (n : List Char) : List Char :=
  (env n).getD []

/-- Helper for `v.split(sep)` with a one-character separator: the piece being
built and the pieces after it. -/
def splitOnCharAux (c : Char) : List Char → List Char × List (List Char)
  | [] => ([], [])
  | x :: xs =>
    if x = c then ([], (splitOnCharAux c xs).1 :: (splitOnCharAux c xs).2)
    else (x :: (splitOnCharAux c xs).1, (splitOnCharAux c xs).2)

/-- Python `v.split(sep)` for a one-character separator (empty pieces kept). -/
def splitOnChar (c : Char) (l : List Char) : List (List Char) :=
  (splitOnCharAux c l).1 :: (splitOnCharAux c l).2

/-- Python `part.split(sep, 1)` when `sep` occurs in `part`: the pieces before
and after its first occurrence. -/
def splitOnce (c : Char) : List Char → List Char × List Char
  | [] => ([], [])
  | x :: xs =>
    if x = c then ([], xs)
    else (x :: (splitOnce c xs).1, (splitOnce c xs).2)

/-- Fuelled body of Python `v.replace(old, new)` (non-overlapping, left to
right, the replacement is not rescanned).  The fuel is only a structural
termination device; `replaceAll` supplies `v.length`, which is always enough
because a non-empty pattern consumes at least one character per step. -/
def replaceAllF (pat rep : List Char) : Nat → List Char → List Char
  | _, [] => []
  | 0, l => l
  | f + 1, x :: xs =>
    if pat ≠ [] ∧ pat.isPrefixOf (x :: xs) then
      rep ++ replaceAllF pat rep f (List.drop (pat.length - 1) xs)
    else
      x :: replaceAllF pat rep f xs

/-- Python `v.replace(old, new)`. -/
def replaceAll (pat rep l : List Char) : List Char :=
  replaceAllF pat rep l.length l

/-- One iteration of the placeholder loop of `_apply_env_in_headers`: for a
piece of `v.split("\x7b")` containing `\x7d`, split off the name before the
first `\x7d` and, when it is non-empty, replace every occurrence of the
placeholder in the accumulated value with `os.getenv(name, "")`. -/
def envStep (env : List Char → Option (List Char)) (acc part : List Char) : List Char :=
  if part.contains rb then
    if (splitOnce rb part).1 ≠ [] then
      replaceAll (lb :: ((splitOnce rb part).1 ++ [rb]))
        (getenvD env (splitOnce rb part).1) acc
    else acc
  else acc

/-- The per-value loop of `_apply_env_in_headers`: when the value contains both
braces, iterate `envStep` over `v.split("\x7b")` (computed once from the
original value). -/
def applyEnvValue (env : List Char → Option (List Char)) (v : List Char) : List Char :=
  if v.contains lb && v.contains rb then
    (splitOnChar lb v).foldl (envStep env) v
  else v

/-- `_apply_env_in_headers` of `scripts/cfp_source_config.py`: keys unchanged,
each value run through the placeholder loop. -/
def apply_env_in_headers (env : List Char → Option (List Char))
    (headers : List (String × List Char)) : List (String × List Char) :=
  headers.map (fun kv => (kv.1, applyEnvValue env kv.2))

/-! ### Specification-side reading of header values

For the comparison demanded by the claim, a header value is presented as a
template: a leading literal and a sequence of `(placeholder name, literal)`
pairs, rendered with `\x7bNAME\x7d` around each name.  `resolveTemplate` is
the specification's description: every placeholder replaced by the value of
the named environment variable, the empty string when unset. -/

/-- A header value in placeholder form. -/
structure HeaderTemplate where
  head : List Char
  items : List (List Char × List Char)
  deriving DecidableEq

/-- Render one `(name, literal)` item as `\x7bNAME\x7dliteral`. -/
def renderItem (it : List Char × List Char) : List Char :=
  lb :: (it.1 ++ rb :: it.2)

/-- Render a template to the concrete header value. -/
def render (t : HeaderTemplate) : List Char :=
  t.head ++ (t.items.map renderItem).flatten

/-- No brace characters occur in `l`. -/
def braceFree (l : List Char) : Prop :=
  lb ∉ l ∧ rb ∉ l

instance (l : List Char) : Decidable (braceFree l) := by
  unfold braceFree; infer_instance

/-- A well-formed template: literals are brace-free and every placeholder name
is non-empty and brace-free. -/
def WfTemplate (t : HeaderTemplate) : Prop :=
  braceFree t.head ∧ ∀ it ∈ t.items, it.1 ≠ [] ∧ braceFree it.1 ∧ braceFree it.2

instance (t : HeaderTemplate) : Decidable (WfTemplate t) := by
  unfold WfTemplate; infer_instance

/-- The specification's expected result: each placeholder replaced by the value
of its environment variable (empty string when unset), literals untouched. -/
def resolveTemplate (env : List Char → Option (List Char)) (t : HeaderTemplate) : List Char :=
  t.head ++ (t.items.map (fun it => getenvD env it.1 ++ it.2)).flatten

/-- Rendering with the placeholders of `resolved` names already substituted:
the intermediate states of the replacement loop. -/
def renderItemM (env : List Char → Option (List Char)) (resolved : List (List Char))
    (it : List Char × List Char) : List Char :=
  if it.1 ∈ resolved then getenvD env it.1 ++ it.2 else renderItem it

/-- Render a template with a set of names already resolved. -/
def renderM (env : List Char → Option (List Char)) (resolved : List (List Char))
    (t : HeaderTemplate) : List Char :=
  t.head ++ (t.items.map (renderItemM env resolved)).flatten

/-! # Theorems

Shared helper lemmas first, then one theorem (with counterexample and witness
where required) per claim. -/

/-! ## The stable sort -/

theorem mem_insertByKey {α : Type} (key : α → Int) (x a : α) (l : List α) :
    a ∈ insertByKey key x l ↔ a = x ∨ a ∈ l := by
  induction l with
  | nil => simp [insertByKey]
  | cons y ys ih =>
    by_cases h : key y ≤ key x
    · simp only [insertByKey, if_pos h, List.mem_cons, ih]
      tauto
    · simp [insertByKey, if_neg h]

theorem pairwise_insertByKey {α : Type} (key : α → Int) (x : α) (l : List α)
    (h : l.Pairwise (fun a b => key a ≤ key b)) :
    (insertByKey key x l).Pairwise (fun a b => key a ≤ key b) := by
  induction l with
  | nil => simp [insertByKey]
  | cons y ys ih =>
    rcases List.pairwise_cons.mp h with ⟨hy, hys⟩
    by_cases hle : key y ≤ key x
    · simp only [insertByKey, if_pos hle]
      refine List.pairwise_cons.mpr ⟨?_, ih hys⟩
      intro z hz
      rcases (mem_insertByKey key x z ys).mp hz with rfl | hz'
      · exact hle
      · exact hy z hz'
    · simp only [insertByKey, if_neg hle]
      refine List.pairwise_cons.mpr ⟨?_, h⟩
      intro z hz
      have hxy : key x ≤ key y := le_of_lt (not_le.mp hle)
      rcases List.mem_cons.mp hz with rfl | hz'
      · exact hxy
      · exact le_trans hxy (hy z hz')

theorem pairwise_pySortByKey {α : Type} (key : α → Int) (l : List α) :
    (pySortByKey key l).Pairwise (fun a b => key a ≤ key b) := by
  have main : ∀ (l acc : List α), acc.Pairwise (fun a b => key a ≤ key b) →
      (l.foldl (fun acc x => insertByKey key x acc) acc).Pairwise
        (fun a b => key a ≤ key b) := by
    intro l
    induction l with
    | nil => intro acc h; simpa using h
    | cons x xs ih => intro acc h; exact ih _ (pairwise_insertByKey key x acc h)
  simpa [pySortByKey] using main l [] (by simp)

theorem mem_pySortByKey {α : Type} (key : α → Int) (a : α) (l : List α) :
    a ∈ pySortByKey key l ↔ a ∈ l := by
  have main : ∀ (l acc : List α),
      a ∈ l.foldl (fun acc x => insertByKey key x acc) acc ↔ a ∈ acc ∨ a ∈ l := by
    intro l
    induction l with
    | nil => intro acc; simp
    | cons x xs ih =>
      intro acc
      rw [List.foldl_cons, ih]
      simp only [mem_insertByKey, List.mem_cons]
      tauto
  simpa [pySortByKey] using main l []

theorem all_pySortByKey {α : Type} (key : α → Int) (p : α → Bool) (l : List α) :
    (pySortByKey key l).all p = l.all p := by
  have hbool : ∀ b c : Bool, (b = true ↔ c = true) → b = c := by
    intro b c h; cases b <;> cases c <;> simp_all
  apply hbool
  simp only [List.all_eq_true]
  constructor
  · intro hh a ha; exact hh a ((mem_pySortByKey key a l).mpr ha)
  · intro hh a ha; exact hh a ((mem_pySortByKey key a l).mp ha)

theorem filter_insertByKey_eq {α : Type} (key : α → Int) (k : Int) (x : α)
    (hx : key x = k) (l : List α) (hs : l.Pairwise (fun a b => key a ≤ key b)) :
    (insertByKey key x l).filter (fun a => key a == k)
      = l.filter (fun a => key a == k) ++ [x] := by
  subst hx
  induction l with
  | nil => simp [insertByKey, List.filter]
  | cons y ys ih =>
    rcases List.pairwise_cons.mp hs with ⟨hy, hys⟩
    by_cases hle : key y ≤ key x
    · simp only [insertByKey, if_pos hle, List.filter_cons]
      rw [ih hys]
      by_cases hyk : (key y == key x) = true <;> simp [hyk]
    · have hlt : key x < key y := not_le.mp hle
      have hyk : (key y == key x) = false := by
        simp only [beq_eq_false_iff_ne, ne_eq]
        omega
      have hysk : ys.filter (fun a => key a == key x) = [] := by
        apply List.filter_eq_nil_iff.mpr
        intro z hz
        have := hy z hz
        simp only [beq_eq_false_iff_ne, ne_eq, Bool.not_eq_true]
        omega
      simp only [insertByKey, if_neg hle, List.filter_cons, beq_self_eq_true,
        if_pos, hyk, hysk]
      simp

theorem filter_insertByKey_ne {α : Type} (key : α → Int) (k : Int) (x : α)
    (hx : key x ≠ k) (l : List α) :
    (insertByKey key x l).filter (fun a => key a == k)
      = l.filter (fun a => key a == k) := by
  have hxb : (key x == k) = false := by simpa using hx
  induction l with
  | nil => simp [insertByKey, List.filter, hxb]
  | cons y ys ih =>
    by_cases hle : key y ≤ key x
    · simp only [insertByKey, if_pos hle, List.filter_cons, ih]
    · simp only [insertByKey, if_neg hle, List.filter_cons]
      have : (key x == k) = false := by simpa using hx
      simp [this]

theorem filter_pySortByKey {α : Type} (key : α → Int) (k : Int) (l : List α) :
    (pySortByKey key l).filter (fun a => key a == k)
      = l.filter (fun a => key a == k) := by
  have main : ∀ (l acc : List α), acc.Pairwise (fun a b => key a ≤ key b) →
      (l.foldl (fun acc x => insertByKey key x acc) acc).filter (fun a => key a == k)
        = acc.filter (fun a => key a == k) ++ l.filter (fun a => key a == k) := by
    intro l
    induction l with
    | nil => intro acc _; simp
    | cons x xs ih =>
      intro acc hacc
      rw [List.foldl_cons, ih _ (pairwise_insertByKey key x acc hacc), List.filter_cons]
      by_cases hxk : key x = k
      · rw [filter_insertByKey_eq key k x hxk acc hacc]
        simp [hxk]
      · rw [filter_insertByKey_ne key k x hxk acc]
        have : (key x == k) = false := by simpa using hxk
        simp [this]
  simpa [pySortByKey] using main l [] (by simp)

/-! ## The fallback loop -/

theorem attemptAll_eq {σ α : Type} (ident : σ → String) (att : σ → Except String α)
    (l : List σ) :
    attemptAll ident att l =
      ((l.takeWhile (fun s => !(att s).isOk)).map ident
          ++ (((l.dropWhile (fun s => !(att s).isOk)).head?.map ident).toList),
        (l.dropWhile (fun s => !(att s).isOk)).head?.bind
          (fun s => ((att s).toOption.map (fun d => (ident s, d))))) := by
  induction l with
  | nil => simp [attemptAll]
  | cons s rest ih =>
    cases h : att s with
    | ok d =>
      simp [attemptAll, h, List.takeWhile_cons, List.dropWhile_cons, Except.isOk, Except.toBool,
        Except.toOption]
    | error e =>
      simp only [attemptAll, h, ih, List.takeWhile_cons, List.dropWhile_cons, Except.isOk,
        Except.toBool, Bool.not_false, if_true, List.map_cons, List.cons_append]

theorem attemptAll_none_of_all_fail {σ α : Type} (ident : σ → String)
    (att : σ → Except String α) (l : List σ)
    (h : ∀ s ∈ l, (att s).isOk = false) :
    (attemptAll ident att l).2 = none := by
  induction l with
  | nil => simp [attemptAll]
  | cons s rest ih =>
    cases hs : att s with
    | ok d =>
      have := h s (List.mem_cons_self s rest)
      rw [hs] at this
      simp [Except.isOk, Except.toBool] at this
    | error e =>
      simp only [attemptAll, hs]
      exact ih (fun x hx => h x (List.mem_cons_of_mem s hx))

theorem head?_dropWhile_false {α : Type} (p : α → Bool) (l : List α) (a : α)
    (h : (l.dropWhile p).head? = some a) : p a = false := by
  induction l with
  | nil => simp [List.dropWhile] at h
  | cons x xs ih =>
    rw [List.dropWhile_cons] at h
    by_cases hx : p x = true
    · rw [if_pos hx] at h
      exact ih h
    · rw [if_neg hx] at h
      simp only [List.head?_cons, Option.some_inj] at h
      subst h
      simpa using hx

theorem pollsHandler_trace_all_ok (att : USource → Except String (List RankEntry))
    (l : List USource) (h : ∀ s ∈ l, (att s).isOk = true) :
    (pollsHandler att l).2 = l.map USource.id := by
  induction l with
  | nil => simp [pollsHandler]
  | cons s rest ih =>
    have hs := h s (List.mem_cons_self s rest)
    cases hatt : att s with
    | error e => rw [hatt] at hs; simp [Except.isOk, Except.toBool] at hs
    | ok items =>
      have hrest := ih (fun x hx => h x (List.mem_cons_of_mem s hx))
      simp only [pollsHandler, hatt]
      cases hph : pollsHandler att rest with
      | mk r tr =>
        cases r <;> simp_all

/-! ## Association lists -/

theorem getAssoc_map_set_ne {α : Type} (l : List (String × α)) (k k' : String) (v : α)
    (h : k' ≠ k) :
    getAssoc (l.map (fun kv => if kv.1 == k then (k, v) else kv)) k' = getAssoc l k' := by
  induction l with
  | nil => rfl
  | cons kv rest ih =>
    have hkk' : (k == k') = false := by
      simp only [beq_eq_false_iff_ne, ne_eq]
      exact fun hh => h hh.symm
    by_cases hkv : kv.1 = k
    · simp only [List.map_cons, hkv, beq_self_eq_true, if_pos, getAssoc, List.find?, hkk']
      have h2 : (kv.1 == k') = false := by rw [hkv]; exact hkk'
      simpa only [getAssoc, List.find?, h2] using ih
    · have hkvb : (kv.1 == k) = false := by simpa using hkv
      simp only [List.map_cons, hkvb, Bool.false_eq_true, if_neg, if_false, getAssoc, List.find?]
      cases hp : (kv.1 == k') with
      | true => simp
      | false => simpa only [getAssoc, List.find?] using ih

theorem getAssoc_map_set_self {α : Type} (l : List (String × α)) (k : String) (v : α)
    (hany : l.any (fun kv => kv.1 == k) = true) :
    getAssoc (l.map (fun kv => if kv.1 == k then (k, v) else kv)) k = some v := by
  induction l with
  | nil => simp at hany
  | cons kv rest ih =>
    by_cases hkv : kv.1 = k
    · simp [List.map_cons, hkv, getAssoc, List.find?]
    · have hkvb : (kv.1 == k) = false := by simpa using hkv
      have hrest : rest.any (fun kv => kv.1 == k) = true := by
        rcases List.any_eq_true.mp hany with ⟨a, ha, hpa⟩
        rcases List.mem_cons.mp ha with rfl | ha'
        · rw [hkvb] at hpa; cases hpa
        · exact List.any_eq_true.mpr ⟨a, ha', hpa⟩
      simp only [List.map_cons, hkvb, Bool.false_eq_true, if_false, getAssoc, List.find?]
      simpa only [getAssoc, hkvb] using ih hrest

theorem getAssoc_append_right {α : Type} (l : List (String × α)) (kv : String × α)
    (k' : String) (hnone : getAssoc l k' = none) :
    getAssoc (l ++ [kv]) k' = if kv.1 == k' then some kv.2 else none := by
  induction l with
  | nil =>
    by_cases h : kv.1 = k'
    · have hb : (kv.1 == k') = true := by simpa using h
      simp [getAssoc, List.find?, hb]
    · have hb : (kv.1 == k') = false := by simpa using h
      simp [getAssoc, List.find?, hb]
  | cons a rest ih =>
    by_cases ha : a.1 = k'
    · simp [getAssoc, List.find?, ha] at hnone
    · have hab : (a.1 == k') = false := by simpa using ha
      simp only [getAssoc, List.find?, hab, List.cons_append] at hnone ⊢
      exact ih hnone

theorem getAssoc_none_of_any_false {α : Type} (l : List (String × α)) (k : String)
    (hany : l.any (fun kv => kv.1 == k) = false) :
    getAssoc l k = none := by
  unfold getAssoc
  rw [List.find?_eq_none.mpr]
  · rfl
  · intro kv hkv hpred
    have : l.any (fun kv => kv.1 == k) = true := List.any_eq_true.mpr ⟨kv, hkv, hpred⟩
    rw [this] at hany
    cases hany

theorem getAssoc_setAssoc {α : Type} (l : List (String × α)) (k k' : String) (v : α) :
    getAssoc (setAssoc l k v) k' = if k' = k then some v else getAssoc l k' := by
  unfold setAssoc
  by_cases hany : l.any (fun kv => kv.1 == k) = true
  · rw [if_pos hany]
    by_cases h' : k' = k
    · subst h'
      rw [if_pos rfl]
      exact getAssoc_map_set_self l k' v hany
    · rw [if_neg h']
      exact getAssoc_map_set_ne l k k' v h'
  · rw [if_neg hany]
    have hnone : getAssoc l k = none :=
      getAssoc_none_of_any_false l k (Bool.eq_false_iff.mpr hany)
    by_cases h' : k' = k
    · subst h'
      rw [if_pos rfl, getAssoc_append_right l (k', v) k' hnone]
      simp
    · rw [if_neg h']
      by_cases hfound : getAssoc l k' = none
      · rw [getAssoc_append_right l (k, v) k' hfound, hfound]
        have : (k == k') = false := by
          simp only [beq_eq_false_iff_ne, ne_eq]
          exact fun hh => h' hh.symm
        simp [this]
      · -- the key k' is found in l; appending does not change the result
        clear hnone hany
        induction l with
        | nil => simp [getAssoc] at hfound
        | cons a rest ih =>
          by_cases ha : a.1 = k'
          · have hab : (a.1 == k') = true := by simpa using ha
            simp [getAssoc, List.find?, hab]
          · have hab : (a.1 == k') = false := by simpa using ha
            simp only [getAssoc, List.find?, hab, List.cons_append] at hfound ⊢
            exact ih hfound

/-! ## Persistence helpers -/

theorem dropWhile_append_of_all {p : Char → Bool} (a b : List Char)
    (h : ∀ c ∈ a, p c = true) :
    (a ++ b).dropWhile p = b.dropWhile p := by
  induction a with
  | nil => rfl
  | cons x xs ih =>
    have hx := h x (List.mem_cons_self x xs)
    simp only [List.cons_append, List.dropWhile_cons, hx, if_true]
    exact ih (fun c hc => h c (List.mem_cons_of_mem x hc))

theorem dirOf_append_noSlash (p s : String) (h : ∀ c ∈ s.data, (c == '/') = false) :
    dirOf (p ++ s) = dirOf p := by
  unfold dirOf
  have hdata : (p ++ s).data = p.data ++ s.data := String.data_append p s
  rw [hdata, List.reverse_append]
  rw [dropWhile_append_of_all s.data.reverse p.data.reverse]
  intro c hc
  have := h c (List.mem_reverse.mp hc)
  simpa using this

theorem prefix_of_pair {α : Type} (a b : α) (pre : List α) (h : pre <+: [a, b]) :
    pre = [] ∨ pre = [a] ∨ pre = [a, b] := by
  rcases h with ⟨t, ht⟩
  cases pre with
  | nil => exact Or.inl rfl
  | cons x xs =>
    cases xs with
    | nil =>
      simp only [List.cons_append, List.nil_append, List.cons.injEq] at ht
      exact Or.inr (Or.inl (by rw [ht.1]))
    | cons y ys =>
      cases ys with
      | nil =>
        simp only [List.cons_append, List.nil_append, List.cons.injEq] at ht
        exact Or.inr (Or.inr (by rw [ht.1, ht.2.1]))
      | cons z zs => simp at ht

/-! ## Claim C9 -/

/-- C9 counterexample: `load_json` of `scripts/cfp_ingest_standings_polls.py`
does not guard `json.load`, so malformed existing content raises out of the
loader instead of being treated as an absent file. -/
theorem c9_counterexample : (load_json_sp FileState.malformed).isOk = false := rfl

/-- C9 (amended): `load_json_file` of `ingest/universal_ingest.py` and
`load_existing_data` of `scripts/cfp_scrape.py` return the empty document both
when the file is absent and when its content is malformed; but `load_json` of
`scripts/cfp_ingest_standings_polls.py` returns the empty document only for an
absent file and lets the parse exception of malformed content propagate. -/
theorem c9_load_prior_document :
    (∀ fs, load_json_file fs = match fs with | .valid d => d | _ => emptyJDoc) ∧
    (∀ fs, load_existing_data fs = load_json_file fs) ∧
    load_json_sp .absent = .ok emptyJDoc ∧
    (∀ d, load_json_sp (.valid d) = .ok d) ∧
    (load_json_sp FileState.malformed).isOk = false :=
  ⟨fun fs => by cases fs <;> rfl, fun fs => by cases fs <;> rfl, rfl, fun _ => rfl, rfl⟩

/-! ## Claim C5 -/

/-- C5 counterexample: `save_data` of `scripts/cfp_scrape.py` opens the
canonical path for writing directly — its trace is a single in-place write to
the target, not a temporary-file write followed by a rename, so the claimed
commit discipline does not hold for every save implementation. -/
theorem c5_counterexample :
    save_data_ops "x" = [FsOp.write "data/cfp-data.json" "x"] ∧
    ¬ writesViaTempRename "data/cfp-data.json" (save_data_ops "x") := by
  refine ⟨rfl, ?_⟩
  rintro ⟨tmp, c, -, -, h⟩
  simp [save_data_ops] at h

/-- C5 (amended): `save_json_file` of `ingest/universal_ingest.py`,
`_save_data` of `tools/cfp/update_cfp_data.py` and `save_json` of
`scripts/cfp_ingest_standings_polls.py` do commit through a same-directory
temporary file and an atomic rename, and a crash at any proper prefix of
`save_json_file`'s operations leaves the target unchanged while the full
sequence installs the new content; `save_data` of `scripts/cfp_scrape.py`
(the counterexample) writes the target in place instead. -/
theorem c5_commit_disciplines (path c : String) (fs : FileSys) :
    writesViaTempRename path (save_json_file_ops path c) ∧
    writesViaTempRename path (update_save_data_ops path c) ∧
    writesViaTempRename "data/cfp-data.json" (save_json_sp_ops c) ∧
    (∀ pre, pre <+: save_json_file_ops path c → pre ≠ save_json_file_ops path c →
      readFs (applyFsOps fs pre) path = readFs fs path) ∧
    readFs (applyFsOps fs (save_json_file_ops path c)) path = some c := by
  have htmp : path ++ ".tmp" ≠ path := by
    intro h
    have hlen := congrArg String.length h
    rw [String.length_append] at hlen
    have h4 : String.length ".tmp" = 4 := rfl
    omega
  have hdir : dirOf (path ++ ".tmp") = dirOf path :=
    dirOf_append_noSlash path ".tmp" (by decide)
  refine ⟨⟨path ++ ".tmp", c, htmp, hdir, rfl⟩,
          ⟨path ++ ".tmp", c, htmp, hdir, rfl⟩,
          ⟨"data/cfp-data.tmp.json", c, by decide, by decide, rfl⟩, ?_, ?_⟩
  · intro pre hpre hne
    rcases prefix_of_pair _ _ pre hpre with rfl | rfl | rfl
    · rfl
    · show readFs (setAssoc fs (path ++ ".tmp") c) path = readFs fs path
      unfold readFs
      rw [getAssoc_setAssoc]
      rw [if_neg (fun hh => htmp hh.symm)]
    · exact absurd rfl hne
  · have hget : getAssoc (setAssoc fs (path ++ ".tmp") c) (path ++ ".tmp") = some c := by
      rw [getAssoc_setAssoc, if_pos rfl]
    have e1 : applyFsOp fs (FsOp.write (path ++ ".tmp") c) = setAssoc fs (path ++ ".tmp") c := rfl
    have e2 : applyFsOp (setAssoc fs (path ++ ".tmp") c) (FsOp.rename (path ++ ".tmp") path)
        = setAssoc (List.filter (fun kv => !(kv.1 == path ++ ".tmp"))
            (setAssoc fs (path ++ ".tmp") c)) path c := by
      simp only [applyFsOp]
      rw [hget]
    show readFs (applyFsOp (applyFsOp fs (.write (path ++ ".tmp") c))
      (.rename (path ++ ".tmp") path)) path = some c
    rw [e1, e2]
    unfold readFs
    rw [getAssoc_setAssoc, if_pos rfl]

/-- C5 witness: the amended theorem applied at a concrete path, content and
file system — a crash right after the temporary write leaves the prior
content readable at the canonical path. -/
theorem c5_commit_disciplines_witness :
    readFs (applyFsOps [("data/cfp-data.json", "old")]
        [FsOp.write ("data/cfp-data.json" ++ ".tmp") "new"]) "data/cfp-data.json"
      = some "old" := by
  have h := (c5_commit_disciplines "data/cfp-data.json" "new"
      [("data/cfp-data.json", "old")]).2.2.2.1
    [FsOp.write ("data/cfp-data.json" ++ ".tmp") "new"]
    ⟨[FsOp.rename ("data/cfp-data.json" ++ ".tmp") "data/cfp-data.json"], rfl⟩
    (by decide)
  rw [h]
  rfl

/-! ## Claim C8 -/

/-- C8 counterexample: on the same two enabled sources with priorities 1 and 2,
`list_sources` of `scripts/cfp_sources.py` puts the higher value first while
`get_sources` of `scripts/cfp_source_config.py` puts the lower value first —
the selection functions do not share one priority convention. -/
theorem c8_counterexample :
    (list_sources [⟨"s1", none, none, none, some 1⟩, ⟨"s2", none, none, none, some 2⟩]
        none none).map CSource.id = ["s2", "s1"] ∧
    (get_sources [⟨"s1", none, none, none, some 1⟩, ⟨"s2", none, none, none, some 2⟩]).map
        CSource.id = ["s1", "s2"] := by
  constructor <;> rfl

/-- C8 (amended): each selection function is internally consistent —
`get_sources` (default priority 999) and the source selection of
`run_for_sport` (default 999) sort ascending, so the lower priority value wins
there, with ties kept in declaration order (the filtered sublist of any fixed
priority is unchanged); `list_sources` (default priority 0) sorts descending,
so the higher value wins there — but the convention differs between the two
groups of implementations. -/
theorem c8_priority_conventions :
    (∀ l : List CSource,
      (get_sources l).Pairwise (fun a b => a.priority.getD 999 ≤ b.priority.getD 999)) ∧
    (∀ l : List RSource,
      (selectSources l).Pairwise (fun a b => rsPriority a ≤ rsPriority b)) ∧
    (∀ (l : List CSource) (k : Option String) (y : Option Int),
      (list_sources l k y).Pairwise
        (fun a b => b.priority.getD 0 ≤ a.priority.getD 0)) ∧
    (∀ (l : List CSource) (p : Int),
      (get_sources l).filter (fun s => s.priority.getD 999 == p)
        = (l.filter (fun s => s.enabled.getD true)).filter
            (fun s => s.priority.getD 999 == p)) ∧
    (∀ (l : List RSource) (p : Int),
      (selectSources l).filter (fun s => rsPriority s == p)
        = (l.filter rsEnabled).filter (fun s => rsPriority s == p)) ∧
    (∀ (l : List CSource) (k : Option String) (y : Option Int) (p : Int),
      (list_sources l k y).filter (fun s => s.priority.getD 0 == p)
        = (l.filter (list_sources_keeps k y)).filter (fun s => s.priority.getD 0 == p)) := by
  refine ⟨?_, ?_, ?_, ?_, ?_, ?_⟩
  · intro l
    exact pairwise_pySortByKey (fun s : CSource => s.priority.getD 999) _
  · intro l
    exact pairwise_pySortByKey rsPriority _
  · intro l k y
    have h := pairwise_pySortByKey (fun s : CSource => -(s.priority.getD 0))
      (l.filter (list_sources_keeps k y))
    exact h.imp (fun hab => neg_le_neg_iff.mp hab)
  · intro l p
    exact filter_pySortByKey (fun s : CSource => s.priority.getD 999) p _
  · intro l p
    exact filter_pySortByKey rsPriority p _
  · intro l k y p
    have hcong : ∀ (m : List CSource),
        m.filter (fun s => (-(s.priority.getD 0) : Int) == -p)
          = m.filter (fun s => (s.priority.getD 0 : Int) == p) := by
      intro m
      apply List.filter_congr
      intro s _
      by_cases hs : s.priority.getD 0 = p
      · simp [hs]
      · have h1 : ((s.priority.getD 0 : Int) == p) = false := by simpa using hs
        have h2 : ((-(s.priority.getD 0) : Int) == -p) = false := by
          simp only [beq_eq_false_iff_ne, ne_eq, neg_inj]
          exact hs
        rw [h1, h2]
    unfold list_sources
    rw [← hcong (pySortByKey (fun s => -(s.priority.getD 0))
          (l.filter (list_sources_keeps k y))),
        ← hcong (l.filter (list_sources_keeps k y))]
    exact filter_pySortByKey (fun s : CSource => -(s.priority.getD 0)) (-p) _

/-! ## Claim C3 -/

/-- C3 counterexample: a payload whose only table has no rank/team header —
`handle_cfp_rankings_html` of `ingest/universal_ingest.py` cannot find the
rankings table, yet it returns the empty list normally instead of raising a
typed parse failure. -/
theorem c3_counterexample :
    findCfpTable [⟨[[⟨true, "foo"⟩]]⟩] = none ∧
    handle_cfp_rankings_html [⟨[[⟨true, "foo"⟩]]⟩] = .ok [] := by
  constructor <;> rfl

/-- C3 (amended): when the expected structure is missing,
`handle_cfp_rankings_html` and `_parse_cfp_rankings` return the empty list
(they never raise); only `fetch_cfp_rankings_official` raises — and it also
raises when a suitable table is found but zero rows parse, the very case the
claim reserves for an empty-list success. -/
theorem c3_parse_failure_behaviour :
    (∀ tables, findCfpTable tables = none → handle_cfp_rankings_html tables = .ok []) ∧
    (∀ tables, findUpdateTable tables = none → update_parse_cfp_rankings tables = .ok []) ∧
    (fetch_cfp_rankings_official []).isOk = false ∧
    (∀ tables t,
      tables.find? (fun tb => !tb.rows.isEmpty && decide (5 < tb.rows.length)) = some t →
      ((t.rows.drop 1).filterMap (fun r => parseCfpRow (rowAllCells r))).isEmpty = true →
      (fetch_cfp_rankings_official tables).isOk = false) ∧
    (∀ tables, (handle_cfp_rankings_html tables).isOk = true) ∧
    (∀ tables, (update_parse_cfp_rankings tables).isOk = true) := by
  refine ⟨?_, ?_, rfl, ?_, ?_, ?_⟩
  · intro tables h
    unfold handle_cfp_rankings_html
    rw [h]
  · intro tables h
    unfold update_parse_cfp_rankings
    rw [h]
  · intro tables t hfind hempty
    unfold fetch_cfp_rankings_official
    have hne : tables.isEmpty = false := by
      cases tables
      · simp at hfind
      · rfl
    rw [hne, hfind]
    simp only [Bool.false_eq_true, if_false]
    simp only [hempty]
    rfl
  · intro tables
    unfold handle_cfp_rankings_html
    cases h : findCfpTable tables <;> rfl
  · intro tables
    unfold update_parse_cfp_rankings
    cases h : findUpdateTable tables <;> rfl

/-- C3 witness: the amended theorem applied at concrete payloads — a page with
one unusable table yields an empty-list success from
`handle_cfp_rankings_html`, and a six-row table with no parsable row makes
`fetch_cfp_rankings_official` raise. -/
theorem c3_parse_failure_behaviour_witness :
    handle_cfp_rankings_html [⟨[[⟨true, "bar"⟩]]⟩] = .ok [] ∧
    (fetch_cfp_rankings_official
        [⟨[[⟨true, "x"⟩], [], [], [], [], [], []]⟩]).isOk = false :=
  ⟨c3_parse_failure_behaviour.1 _ (by decide),
   c3_parse_failure_behaviour.2.2.2.1 [⟨[[⟨true, "x"⟩], [], [], [], [], [], []]⟩]
     ⟨[[⟨true, "x"⟩], [], [], [], [], [], []]⟩ (by decide) (by decide)⟩

/-! ## Claim C6 -/

/-- C6 counterexample: a rankings table listing seed 2 before seed 1 —
`handle_cfp_rankings_html` emits the rows in document order, so the persisted
list is not sorted (strictly or otherwise) by seed. -/
theorem c6_counterexample :
    handle_cfp_rankings_html [⟨[[⟨true, "Rank"⟩, ⟨true, "School"⟩],
        [⟨false, "2"⟩, ⟨false, "B"⟩, ⟨false, "1-0"⟩],
        [⟨false, "1"⟩, ⟨false, "A"⟩, ⟨false, "2-0"⟩]]⟩]
      = .ok [⟨2, "B", "1-0", "", "in_play", ""⟩, ⟨1, "A", "2-0", "", "in_play", ""⟩] ∧
    ¬ List.Pairwise (fun a b => a.seed < b.seed)
        [(⟨2, "B", "1-0", "", "in_play", ""⟩ : RankEntry),
         ⟨1, "A", "2-0", "", "in_play", ""⟩] := by
  constructor
  · rfl
  · decide

/-- C6 (amended): `handle_cfp_rankings_html` returns the parsed rows exactly in
table order, with no sorting and no uniqueness check; the `ingest_sports.py`
pipeline does sort its rankings by seed, but only weakly ascending — duplicate
seeds are kept. -/
theorem c6_seed_ordering :
    (∀ l : List RankEntry,
      (build_ncaaf_sort_rankings l).Pairwise (fun a b => a.seed ≤ b.seed)) ∧
    (∀ tables t, findCfpTable tables = some t →
      handle_cfp_rankings_html tables
        = .ok (t.rows.filterMap (fun r => parseCfpRow (rowTds r)))) := by
  constructor
  · intro l
    have h := pairwise_pySortByKey (fun e : RankEntry => (e.seed : Int)) l
    exact h.imp (fun hab => by exact_mod_cast hab)
  · intro tables t h
    unfold handle_cfp_rankings_html
    rw [h]

/-- C6 witness: the amended theorem applied at a concrete table — the handler
reproduces the out-of-order rows as parsed, and the `ingest_sports` sort
arranges a concrete duplicate-seed list weakly ascending. -/
theorem c6_seed_ordering_witness :
    handle_cfp_rankings_html [⟨[[⟨true, "Rank"⟩, ⟨true, "Team"⟩],
        [⟨false, "3"⟩, ⟨false, "C"⟩], [⟨false, "1"⟩, ⟨false, "A"⟩]]⟩]
      = .ok [⟨3, "C", "", "", "in_play", ""⟩, ⟨1, "A", "", "", "in_play", ""⟩] := by
  have h := c6_seed_ordering.2
    [⟨[[⟨true, "Rank"⟩, ⟨true, "Team"⟩], [⟨false, "3"⟩, ⟨false, "C"⟩],
      [⟨false, "1"⟩, ⟨false, "A"⟩]]⟩]
    ⟨[[⟨true, "Rank"⟩, ⟨true, "Team"⟩], [⟨false, "3"⟩, ⟨false, "C"⟩],
      [⟨false, "1"⟩, ⟨false, "A"⟩]]⟩ (by decide)
  rw [h]
  rfl

/-! ## Orchestration helpers -/

theorem attemptAll_winner_id {σ α : Type} (ident : σ → String)
    (att : σ → Except String α) (l : List σ) :
    (attemptAll ident att l).2.map Prod.fst
      = ((l.dropWhile (fun s => !(att s).isOk)).head?).map ident := by
  rw [attemptAll_eq]
  rcases hh : (l.dropWhile (fun s => !(att s).isOk)).head? with _ | s
  · rfl
  · have hok : (!(att s).isOk) = false := head?_dropWhile_false _ l s hh
    have hok' : (att s).isOk = true := by simpa using hok
    cases ha : att s with
    | error e => rw [ha] at hok'; simp [Except.isOk, Except.toBool] at hok'
    | ok d => simp [ha, Except.toOption]

theorem run_for_sport_eq {α : Type} (att : RSource → Except String α) (cfg : SportCfg)
    (hen : cfg.enabled.getD false = true)
    (hout : cfg.output_file.isNone = false)
    (hsrc : cfg.sources.isEmpty = false) :
    run_for_sport att cfg =
      ⟨(attemptAll RSource.id att (selectSources cfg.sources)).2.isSome,
       (attemptAll RSource.id att (selectSources cfg.sources)).1,
       (attemptAll RSource.id att (selectSources cfg.sources)).2.map Prod.fst⟩ := by
  unfold run_for_sport
  rw [hen, hout, hsrc]
  rcases hA : attemptAll RSource.id att (selectSources cfg.sources) with ⟨tr, w⟩
  cases w with
  | none => simp
  | some p => simp

theorem run_dataset_single_success (att : USource → Except String (List RankEntry))
    (t : Int) (dry : Bool) (prior : JDoc) (ds : UDataset) (i : String) (d : List RankEntry)
    (hen : ds.enabled.getD false = true)
    (hk : HANDLERS_kinds.contains ds.kind = true)
    (hnp : (ds.kind == "ncaaf_polls_html") = false)
    (hatt : (attemptAll USource.id att (ds.primary_sources ++ ds.backup_sources)).2
      = some (i, d)) :
    run_dataset att t dry prior ds =
      if dry then
        ⟨true, prior, false,
         (attemptAll USource.id att (ds.primary_sources ++ ds.backup_sources)).1⟩
      else
        ⟨true,
         persistStamp { prior with fields := setAssoc prior.fields ds.output.field d }
           t ds.output.pathName,
         true,
         (attemptAll USource.id att (ds.primary_sources ++ ds.backup_sources)).1⟩ := by
  have hne : (ds.primary_sources ++ ds.backup_sources).isEmpty = false := by
    rcases hl : ds.primary_sources ++ ds.backup_sources with _ | ⟨s, rest⟩
    · rw [hl] at hatt; simp [attemptAll] at hatt
    · rfl
  rcases hA : attemptAll USource.id att (ds.primary_sources ++ ds.backup_sources) with ⟨tr, w⟩
  rw [hA] at hatt
  simp only at hatt
  subst hatt
  unfold run_dataset run_dataset_step
  rw [hen, hk, hne, hnp, hA]
  cases dry <;> simp

theorem run_dataset_single_exhausted (att : USource → Except String (List RankEntry))
    (t : Int) (dry : Bool) (prior : JDoc) (ds : UDataset)
    (hnp : (ds.kind == "ncaaf_polls_html") = false)
    (hall : ∀ s ∈ ds.primary_sources ++ ds.backup_sources, (att s).isOk = false) :
    (run_dataset att t dry prior ds).doc = prior ∧
    (run_dataset att t dry prior ds).wrote = false := by
  unfold run_dataset
  cases hen : ds.enabled.getD false with
  | false => simp
  | true =>
    cases hk : HANDLERS_kinds.contains ds.kind with
    | false => simp
    | true =>
      cases hne : (ds.primary_sources ++ ds.backup_sources).isEmpty with
      | true => simp
      | false =>
        have hnone : (attemptAll USource.id att (ds.primary_sources ++ ds.backup_sources)).2
            = none := attemptAll_none_of_all_fail _ att _ hall
        unfold run_dataset_step
        rw [hnp]
        rcases hA : attemptAll USource.id att (ds.primary_sources ++ ds.backup_sources)
          with ⟨tr, w⟩
        rw [hA] at hnone
        simp only at hnone
        subst hnone
        simp

theorem run_dataset_polls_trace (att : USource → Except String (List RankEntry))
    (t : Int) (dry : Bool) (prior : JDoc) (ds : UDataset)
    (hen : ds.enabled.getD false = true)
    (hp : ds.kind = "ncaaf_polls_html")
    (hne : (ds.primary_sources ++ ds.backup_sources).isEmpty = false) :
    (run_dataset att t dry prior ds).trace = (pollsHandler att ds.primary_sources).2 := by
  have hk : HANDLERS_kinds.contains ds.kind = true := by
    rw [hp]; rfl
  have hpb : (ds.kind == "ncaaf_polls_html") = true := by
    rw [hp]; rfl
  unfold run_dataset run_dataset_step
  rw [hen, hk, hne, hpb]
  rcases hP : pollsHandler att ds.primary_sources with ⟨r, tr⟩
  cases r with
  | error e => simp
  | ok items => cases dry <;> simp

theorem run_dataset_ok_eq (att : USource → Except String (List RankEntry))
    (t : Int) (dry : Bool) (prior : JDoc) (ds : UDataset) :
    (run_dataset att t dry prior ds).ok = datasetOk att ds := by
  unfold run_dataset run_dataset_step datasetOk
  cases hen : ds.enabled.getD false with
  | false => simp
  | true =>
    cases hk : HANDLERS_kinds.contains ds.kind with
    | false => simp
    | true =>
      cases hne : (ds.primary_sources ++ ds.backup_sources).isEmpty with
      | true => simp
      | false =>
        cases hkind : ds.kind == "ncaaf_polls_html" with
        | true =>
          rcases hP : pollsHandler att ds.primary_sources with ⟨r, tr⟩
          cases r with
          | error e => simp [Except.isOk, Except.toBool]
          | ok items => cases dry <;> simp [Except.isOk, Except.toBool]
        | false =>
          rcases hA : attemptAll USource.id att (ds.primary_sources ++ ds.backup_sources)
            with ⟨tr, w⟩
          cases w with
          | none => simp
          | some p => cases dry <;> simp

theorem universal_main_eq (att : USource → Except String (List RankEntry)) (t : Int)
    (dry : Bool) (prior : String → JDoc) (datasets : List UDataset) :
    universal_main att t dry prior datasets
      = if datasets.all (fun d => datasetOk att d) then 0 else 1 := by
  unfold universal_main
  have hall : (pySortByKey (fun d : UDataset => -(d.priority.getD 0)) datasets).all
      (fun d => (run_dataset att t dry (prior d.output.pathName) d).ok)
      = datasets.all (fun d => datasetOk att d) := by
    have h1 : ∀ m : List UDataset,
        m.all (fun d => (run_dataset att t dry (prior d.output.pathName) d).ok)
          = m.all (fun d => datasetOk att d) := by
      intro m
      induction m with
      | nil => rfl
      | cons d rest ih => simp [List.all_cons, ih, run_dataset_ok_eq]
    rw [h1, all_pySortByKey]
  show (let ds := pySortByKey (fun d : UDataset => -(d.priority.getD 0)) datasets
    if ds.isEmpty then (0 : Int)
    else if ds.all (fun d => (run_dataset att t dry (prior d.output.pathName) d).ok) then 0
    else 1) = _
  simp only []
  cases hemp : (pySortByKey (fun d : UDataset => -(d.priority.getD 0)) datasets).isEmpty with
  | true =>
    have hnil : datasets = [] := by
      rcases datasets with _ | ⟨d, rest⟩
      · rfl
      · exfalso
        have hd : d ∈ pySortByKey (fun d : UDataset => -(d.priority.getD 0)) (d :: rest) :=
          (mem_pySortByKey _ d _).mpr (List.mem_cons_self d rest)
        rcases hs : pySortByKey (fun d : UDataset => -(d.priority.getD 0)) (d :: rest)
          with _ | ⟨x, xs⟩
        · rw [hs] at hd; simp at hd
        · rw [hs] at hemp; simp at hemp
    subst hnil
    simp [pySortByKey]
  | false =>
    simp only [Bool.false_eq_true, if_false]
    rw [hall]

theorem run_dataset_trace_single (att : USource → Except String (List RankEntry))
    (t : Int) (dry : Bool) (prior : JDoc) (ds : UDataset)
    (hen : ds.enabled.getD false = true)
    (hk : HANDLERS_kinds.contains ds.kind = true)
    (hnp : (ds.kind == "ncaaf_polls_html") = false)
    (hne : (ds.primary_sources ++ ds.backup_sources).isEmpty = false) :
    (run_dataset att t dry prior ds).trace
      = (attemptAll USource.id att (ds.primary_sources ++ ds.backup_sources)).1 := by
  unfold run_dataset run_dataset_step
  rw [hen, hk, hne, hnp]
  rcases hA : attemptAll USource.id att (ds.primary_sources ++ ds.backup_sources) with ⟨tr, w⟩
  cases w with
  | none => simp
  | some p =>
    rcases p with ⟨i, d⟩
    cases dry <;> simp

theorem persistStamp_fields (doc1 : JDoc) (t : Int) (pathName : String) :
    (persistStamp doc1 t pathName).fields = doc1.fields := by
  unfold persistStamp
  split <;> rfl

theorem persistStamp_lu_cfp (doc1 : JDoc) (t : Int) (pathName : String)
    (h : pathName = "cfp-data.json") :
    (persistStamp doc1 t pathName).last_updated = some t := by
  unfold persistStamp
  rw [h]
  simp

theorem getAssoc_some_any {α : Type} (l : List (String × α)) (k : String) (v : α)
    (h : getAssoc l k = some v) : l.any (fun kv => kv.1 == k) = true := by
  unfold getAssoc at h
  rcases hf : l.find? (fun kv => kv.1 == k) with _ | kv
  · rw [hf] at h; cases h
  · have hp := List.find?_some hf
    exact List.any_eq_true.mpr ⟨kv, List.mem_of_find?_eq_some hf, hp⟩

theorem attemptAll_isSome_any {σ α : Type} (ident : σ → String)
    (att : σ → Except String α) (l : List σ) :
    (attemptAll ident att l).2.isSome = l.any (fun s => (att s).isOk) := by
  induction l with
  | nil => rfl
  | cons s rest ih =>
    cases ha : att s with
    | ok d => simp [attemptAll, ha, Except.isOk, Except.toBool]
    | error e =>
      have ih' := ih
      simp only [attemptAll, ha]
      rcases hr : attemptAll ident att rest with ⟨tr, w⟩
      rw [hr] at ih'
      show w.isSome = (s :: rest).any (fun s => (att s).isOk)
      rw [List.any_cons, ha]
      have h1 : (Except.error e : Except String α).isOk = false := rfl
      rw [h1, Bool.false_or, ← ih']

theorem pollsHandler_isOk_all (att : USource → Except String (List RankEntry))
    (l : List USource) :
    (pollsHandler att l).1.isOk = l.all (fun s => (att s).isOk) := by
  induction l with
  | nil => rfl
  | cons s rest ih =>
    cases ha : att s with
    | error e => simp [pollsHandler, ha, Except.isOk, Except.toBool]
    | ok items =>
      have ih' := ih
      simp only [pollsHandler, ha]
      rcases hr : pollsHandler att rest with ⟨r, tr⟩
      rw [hr] at ih'
      cases r with
      | ok more =>
        show (Except.ok (items ++ more) : Except String (List RankEntry)).isOk
            = (s :: rest).all (fun s => (att s).isOk)
        rw [List.all_cons, ha]
        have h1 : (Except.ok items : Except String (List RankEntry)).isOk = true := rfl
        have h2 : (Except.ok (items ++ more) : Except String (List RankEntry)).isOk
            = true := rfl
        rw [h1, h2, Bool.true_and, ← ih']
        rfl
      | error e2 =>
        show (Except.error e2 : Except String (List RankEntry)).isOk
            = (s :: rest).all (fun s => (att s).isOk)
        rw [List.all_cons, ha]
        have h1 : (Except.ok items : Except String (List RankEntry)).isOk = true := rfl
        rw [h1, Bool.true_and, ← ih']

theorem run_dataset_doc_or_wrote (att : USource → Except String (List RankEntry))
    (t : Int) (dry : Bool) (prior : JDoc) (ds : UDataset) :
    (run_dataset att t dry prior ds).doc = prior ∨
      (run_dataset att t dry prior ds).wrote = true := by
  unfold run_dataset
  cases hen : ds.enabled.getD false with
  | false => left; simp
  | true =>
    cases hk : HANDLERS_kinds.contains ds.kind with
    | false => left; simp
    | true =>
      cases hne : (ds.primary_sources ++ ds.backup_sources).isEmpty with
      | true => left; simp
      | false =>
        rcases hs : run_dataset_step att ds with ⟨dataOpt, didError, tr⟩
        cases dataOpt with
        | none => left; simp
        | some data =>
          cases dry with
          | true => left; simp
          | false => right; simp

theorem run_dataset_step_cases (att : USource → Except String (List RankEntry))
    (ds : UDataset) :
    (run_dataset_step att ds).2.1 = false ∨ (run_dataset_step att ds).1 = none := by
  unfold run_dataset_step
  cases hkind : ds.kind == "ncaaf_polls_html" with
  | true =>
    rcases hP : pollsHandler att ds.primary_sources with ⟨r, tr⟩
    cases r with
    | ok items => left; simp
    | error e => right; simp
  | false =>
    rcases hA : attemptAll USource.id att (ds.primary_sources ++ ds.backup_sources)
      with ⟨tr, w⟩
    cases w with
    | none => right; simp
    | some p =>
      rcases p with ⟨i, d⟩
      left; simp

theorem run_dataset_wrote_eq_ok (att : USource → Except String (List RankEntry))
    (t : Int) (prior : JDoc) (ds : UDataset)
    (hen : ds.enabled.getD false = true)
    (hk : HANDLERS_kinds.contains ds.kind = true)
    (hne : (ds.primary_sources ++ ds.backup_sources).isEmpty = false) :
    (run_dataset att t false prior ds).wrote = (run_dataset att t false prior ds).ok := by
  unfold run_dataset
  rw [hen, hk, hne]
  rcases hs : run_dataset_step att ds with ⟨dataOpt, didError, tr⟩
  cases dataOpt with
  | none => simp
  | some data =>
    rcases run_dataset_step_cases att ds with hc | hc
    · rw [hs] at hc
      have hDE : didError = false := by simpa using hc
      subst hDE
      simp
    · rw [hs] at hc
      simp at hc

theorem run_dataset_polls_success (att : USource → Except String (List RankEntry))
    (t : Int) (prior : JDoc) (ds : UDataset) (items : List RankEntry) (tr : List String)
    (hen : ds.enabled.getD false = true)
    (hp : ds.kind = "ncaaf_polls_html")
    (hne : (ds.primary_sources ++ ds.backup_sources).isEmpty = false)
    (hP : pollsHandler att ds.primary_sources = (.ok items, tr)) :
    run_dataset att t false prior ds
      = ⟨true,
         persistStamp { prior with fields := setAssoc prior.fields ds.output.field items }
           t ds.output.pathName,
         true, tr⟩ := by
  have hk : HANDLERS_kinds.contains ds.kind = true := by rw [hp]; rfl
  have hpb : (ds.kind == "ncaaf_polls_html") = true := by rw [hp]; rfl
  unfold run_dataset run_dataset_step
  rw [hen, hk, hne, hpb, hP]
  simp

theorem run_dataset_polls_failed (att : USource → Except String (List RankEntry))
    (t : Int) (dry : Bool) (prior : JDoc) (ds : UDataset)
    (hp : ds.kind = "ncaaf_polls_html")
    (hfail : (pollsHandler att ds.primary_sources).1.isOk = false) :
    (run_dataset att t dry prior ds).doc = prior ∧
      (run_dataset att t dry prior ds).wrote = false := by
  have hpb : (ds.kind == "ncaaf_polls_html") = true := by rw [hp]; rfl
  unfold run_dataset run_dataset_step
  cases hen : ds.enabled.getD false with
  | false => simp
  | true =>
    cases hk : HANDLERS_kinds.contains ds.kind with
    | false => simp
    | true =>
      cases hne : (ds.primary_sources ++ ds.backup_sources).isEmpty with
      | true => simp
      | false =>
        rw [hpb]
        rcases hP : pollsHandler att ds.primary_sources with ⟨r, tr⟩
        rw [hP] at hfail
        cases r with
        | ok its => simp [Except.isOk, Except.toBool] at hfail
        | error e => simp

/-! ## Claim C1 -/

/-- C1 counterexample: a dataset of kind `ncaaf_polls_html` with two primary
sources that both succeed — `run_dataset` still fetches the second source after
the first one's fetch-and-parse succeeded, because the polls handler fetches
every primary source unconditionally. -/
theorem c1_counterexample :
    (run_dataset (fun _ => .ok []) 0 false emptyJDoc
        ⟨"polls", some true, "ncaaf_polls_html", ⟨"cfp-data.json", "polls"⟩, none,
         [⟨"B"⟩, ⟨"C"⟩], []⟩).trace = ["B", "C"] ∧
    (run_dataset (fun _ => .ok []) 0 false emptyJDoc
        ⟨"polls", some true, "ncaaf_polls_html", ⟨"cfp-data.json", "polls"⟩, none,
         [⟨"B"⟩, ⟨"C"⟩], []⟩).ok = true := by
  constructor <;> rfl

/-- C1 (amended): for `run_for_sport` of `ingestion/ingest_runner.py` and for
every `run_dataset` dataset of a single-source kind (any kind other than
`ncaaf_polls_html`), sources are attempted strictly in the order produced by
source selection and the trace is the failing prefix followed by the first
succeeding source, which is the winner — no later source is fetched; datasets
of kind `ncaaf_polls_html`, however, fetch every primary source even when an
earlier one already succeeded. -/
theorem c1_first_success_wins :
    (∀ (α : Type) (att : RSource → Except String α) (cfg : SportCfg),
      cfg.enabled.getD false = true → cfg.output_file.isNone = false →
      cfg.sources.isEmpty = false →
      (run_for_sport att cfg).trace
          = ((selectSources cfg.sources).takeWhile (fun s => !(att s).isOk)).map RSource.id
            ++ (((selectSources cfg.sources).dropWhile
                  (fun s => !(att s).isOk)).head?.map RSource.id).toList
        ∧ (run_for_sport att cfg).winner
          = ((selectSources cfg.sources).dropWhile
              (fun s => !(att s).isOk)).head?.map RSource.id) ∧
    (∀ att (t : Int) (dry : Bool) (prior : JDoc) (ds : UDataset),
      ds.enabled.getD false = true → HANDLERS_kinds.contains ds.kind = true →
      (ds.kind == "ncaaf_polls_html") = false →
      (ds.primary_sources ++ ds.backup_sources).isEmpty = false →
      (run_dataset att t dry prior ds).trace
        = (((ds.primary_sources ++ ds.backup_sources).takeWhile
              (fun s => !(att s).isOk)).map USource.id)
          ++ ((((ds.primary_sources ++ ds.backup_sources)).dropWhile
              (fun s => !(att s).isOk)).head?.map USource.id).toList) ∧
    (∀ att (t : Int) (dry : Bool) (prior : JDoc) (ds : UDataset),
      ds.enabled.getD false = true → ds.kind = "ncaaf_polls_html" →
      (ds.primary_sources ++ ds.backup_sources).isEmpty = false →
      (∀ s ∈ ds.primary_sources, (att s).isOk = true) →
      (run_dataset att t dry prior ds).trace = ds.primary_sources.map USource.id) := by
  refine ⟨?_, ?_, ?_⟩
  · intro α att cfg h1 h2 h3
    rw [run_for_sport_eq att cfg h1 h2 h3]
    constructor
    · show (attemptAll RSource.id att (selectSources cfg.sources)).1 = _
      rw [attemptAll_eq]
    · show (attemptAll RSource.id att (selectSources cfg.sources)).2.map Prod.fst = _
      exact attemptAll_winner_id RSource.id att (selectSources cfg.sources)
  · intro att t dry prior ds h1 h2 h3 h4
    rw [run_dataset_trace_single att t dry prior ds h1 h2 h3 h4]
    rw [attemptAll_eq]
  · intro att t dry prior ds h1 h2 h3 h4
    rw [run_dataset_polls_trace att t dry prior ds h1 h2 h3]
    exact pollsHandler_trace_all_ok att ds.primary_sources h4

/-- C1 witness: the claim's own scenario — A (priority 1) failing, B
(priority 2) succeeding, C (priority 3) succeeding: the fetch trace is
exactly A then B, B is the winner, and C is never fetched. -/
theorem c1_first_success_wins_witness :
    (run_for_sport (fun s => if s.id = "A" then (.error "down" : Except String Unit) else .ok ())
        ⟨some true, some "out.json",
         [⟨"A", some true, some 1⟩, ⟨"B", some true, some 2⟩,
          ⟨"C", some true, some 3⟩]⟩).trace = ["A", "B"] ∧
    (run_for_sport (fun s => if s.id = "A" then (.error "down" : Except String Unit) else .ok ())
        ⟨some true, some "out.json",
         [⟨"A", some true, some 1⟩, ⟨"B", some true, some 2⟩,
          ⟨"C", some true, some 3⟩]⟩).winner = some "B" := by
  have h := c1_first_success_wins.1 Unit
    (fun s => if s.id = "A" then (.error "down" : Except String Unit) else .ok ())
    ⟨some true, some "out.json",
     [⟨"A", some true, some 1⟩, ⟨"B", some true, some 2⟩, ⟨"C", some true, some 3⟩]⟩
    rfl rfl rfl
  exact ⟨h.1.trans (by decide), h.2.trans (by decide)⟩

/-! ## Claim C2 -/

/-- C2 counterexample: the prior document holds a non-empty `rankings` field;
a run whose source succeeds with the empty list still overwrites the field
with `[]` — the code overwrites on any produced result, not only on a
non-empty one. -/
theorem c2_counterexample :
    getAssoc (run_dataset (fun _ => .ok []) 9 false
        ⟨[("rankings", [⟨1, "A", "2-0", "", "in_play", ""⟩])], some 5⟩
        ⟨"cfp", some true, "cfp_rankings_html", ⟨"cfp-data.json", "rankings"⟩, none,
         [⟨"s1"⟩], []⟩).doc.fields "rankings" = some [] ∧
    getAssoc [("rankings", [(⟨1, "A", "2-0", "", "in_play", ""⟩ : RankEntry)])] "rankings"
      = some [⟨1, "A", "2-0", "", "in_play", ""⟩] := by
  constructor <;> rfl

/-- C2 (amended): in `run_dataset` the persisted document changes only when a
write happens, and for an enabled dataset with a known kind and a non-empty
source list a write happens exactly when data is produced — for single-source
kinds, exactly when at least one source's call does not raise, the output
field then being overwritten with the first success's result even when it is
the empty list, while exhaustion (every source raising) leaves the whole
document at its prior value; for `ncaaf_polls_html` datasets, exactly when
every primary source's fetch succeeds, the field then being overwritten with
the aggregated polls, while a single fetch failure retains the prior field
even though earlier sources produced results.  Untouched fields always keep
their prior value, and `fetch_cfp_data.py` falls back to the existing
`rankings` value when the scrape result is empty. -/
theorem c2_overwrite_policy :
    (∀ att (t : Int) (dry : Bool) (prior : JDoc) (ds : UDataset),
      (run_dataset att t dry prior ds).doc = prior ∨
        (run_dataset att t dry prior ds).wrote = true) ∧
    (∀ att (t : Int) (prior : JDoc) (ds : UDataset),
      ds.enabled.getD false = true → HANDLERS_kinds.contains ds.kind = true →
      (ds.primary_sources ++ ds.backup_sources).isEmpty = false →
      (run_dataset att t false prior ds).wrote = datasetOk att ds) ∧
    (∀ (att : USource → Except String (List RankEntry)) (l : List USource),
      (attemptAll USource.id att l).2.isSome = l.any (fun s => (att s).isOk)) ∧
    (∀ (att : USource → Except String (List RankEntry)) (l : List USource),
      (pollsHandler att l).1.isOk = l.all (fun s => (att s).isOk)) ∧
    (∀ att (t : Int) (prior : JDoc) (ds : UDataset) (i : String) (d : List RankEntry),
      ds.enabled.getD false = true → HANDLERS_kinds.contains ds.kind = true →
      (ds.kind == "ncaaf_polls_html") = false →
      (attemptAll USource.id att (ds.primary_sources ++ ds.backup_sources)).2 = some (i, d) →
      (run_dataset att t false prior ds).doc.fields
        = setAssoc prior.fields ds.output.field d) ∧
    (∀ att (t : Int) (dry : Bool) (prior : JDoc) (ds : UDataset),
      (ds.kind == "ncaaf_polls_html") = false →
      (∀ s ∈ ds.primary_sources ++ ds.backup_sources, (att s).isOk = false) →
      (run_dataset att t dry prior ds).doc = prior ∧
        (run_dataset att t dry prior ds).wrote = false) ∧
    (∀ att (t : Int) (prior : JDoc) (ds : UDataset) (items : List RankEntry)
        (tr : List String),
      ds.enabled.getD false = true → ds.kind = "ncaaf_polls_html" →
      (ds.primary_sources ++ ds.backup_sources).isEmpty = false →
      pollsHandler att ds.primary_sources = (.ok items, tr) →
      (run_dataset att t false prior ds).doc.fields
        = setAssoc prior.fields ds.output.field items) ∧
    (∀ att (t : Int) (dry : Bool) (prior : JDoc) (ds : UDataset),
      ds.kind = "ncaaf_polls_html" →
      (pollsHandler att ds.primary_sources).1.isOk = false →
      (run_dataset att t dry prior ds).doc = prior ∧
        (run_dataset att t dry prior ds).wrote = false) ∧
    (∀ (fields : List (String × List RankEntry)) (k k' : String) (v : List RankEntry),
      k' ≠ k → getAssoc (setAssoc fields k v) k' = getAssoc fields k') ∧
    (∀ (ex : List (String × List RankEntry)) (v : List RankEntry),
      getAssoc ex "rankings" = some v → fetch_cfp_data_rankings [] ex = v) := by
  refine ⟨?_, ?_, ?_, ?_, ?_, ?_, ?_, ?_, ?_, ?_⟩
  · intro att t dry prior ds
    exact run_dataset_doc_or_wrote att t dry prior ds
  · intro att t prior ds h1 h2 h3
    exact (run_dataset_wrote_eq_ok att t prior ds h1 h2 h3).trans
      (run_dataset_ok_eq att t false prior ds)
  · intro att l
    exact attemptAll_isSome_any USource.id att l
  · intro att l
    exact pollsHandler_isOk_all att l
  · intro att t prior ds i d h1 h2 h3 h4
    rw [run_dataset_single_success att t false prior ds i d h1 h2 h3 h4]
    simp only [Bool.false_eq_true, if_false]
    exact persistStamp_fields _ t _
  · intro att t dry prior ds hnp hall
    exact run_dataset_single_exhausted att t dry prior ds hnp hall
  · intro att t prior ds items tr h1 h2 h3 h4
    rw [run_dataset_polls_success att t prior ds items tr h1 h2 h3 h4]
    exact persistStamp_fields _ t _
  · intro att t dry prior ds h1 h2
    exact run_dataset_polls_failed att t dry prior ds h1 h2
  · intro fields k k' v h
    rw [getAssoc_setAssoc, if_neg h]
  · intro ex v h
    unfold fetch_cfp_data_rankings
    rw [getAssoc_some_any ex "rankings" v h]
    simp only [List.isEmpty_nil, Bool.true_and, if_true, h, Option.getD_some]

/-- C2 witness: the amended theorem applied concretely — an exhausted run
leaves the prior document untouched, an empty-list success overwrites the
`rankings` field, and a polls dataset whose second primary source raises
after the first succeeded keeps the prior document. -/
theorem c2_overwrite_policy_witness :
    (run_dataset (fun _ => .error "x") 9 false
        ⟨[("rankings", [⟨1, "A", "2-0", "", "in_play", ""⟩])], some 5⟩
        ⟨"cfp", some true, "cfp_rankings_html", ⟨"cfp-data.json", "rankings"⟩, none,
         [⟨"s1"⟩], []⟩).doc
      = ⟨[("rankings", [⟨1, "A", "2-0", "", "in_play", ""⟩])], some 5⟩ ∧
    (run_dataset (fun _ => .ok []) 9 false
        ⟨[("rankings", [⟨1, "A", "2-0", "", "in_play", ""⟩])], some 5⟩
        ⟨"cfp", some true, "cfp_rankings_html", ⟨"cfp-data.json", "rankings"⟩, none,
         [⟨"s1"⟩], []⟩).doc.fields
      = setAssoc [("rankings", [⟨1, "A", "2-0", "", "in_play", ""⟩])] "rankings" [] ∧
    (run_dataset (fun s => if s.id = "P2" then .error "down" else .ok []) 9 false
        ⟨[("polls", [⟨1, "A", "2-0", "", "in_play", ""⟩])], some 5⟩
        ⟨"polls", some true, "ncaaf_polls_html", ⟨"cfp-data.json", "polls"⟩, none,
         [⟨"P1"⟩, ⟨"P2"⟩], []⟩).doc
      = ⟨[("polls", [⟨1, "A", "2-0", "", "in_play", ""⟩])], some 5⟩ :=
  ⟨(c2_overwrite_policy.2.2.2.2.2.1 (fun _ => .error "x") 9 false
      ⟨[("rankings", [⟨1, "A", "2-0", "", "in_play", ""⟩])], some 5⟩
      ⟨"cfp", some true, "cfp_rankings_html", ⟨"cfp-data.json", "rankings"⟩, none,
       [⟨"s1"⟩], []⟩ rfl (by decide)).1,
   c2_overwrite_policy.2.2.2.2.1 (fun _ => .ok []) 9
      ⟨[("rankings", [⟨1, "A", "2-0", "", "in_play", ""⟩])], some 5⟩
      ⟨"cfp", some true, "cfp_rankings_html", ⟨"cfp-data.json", "rankings"⟩, none,
       [⟨"s1"⟩], []⟩ "s1" [] rfl rfl rfl rfl,
   (c2_overwrite_policy.2.2.2.2.2.2.2.1
      (fun s => if s.id = "P2" then .error "down" else .ok []) 9 false
      ⟨[("polls", [⟨1, "A", "2-0", "", "in_play", ""⟩])], some 5⟩
      ⟨"polls", some true, "ncaaf_polls_html", ⟨"cfp-data.json", "polls"⟩, none,
       [⟨"P1"⟩, ⟨"P2"⟩], []⟩ rfl (by decide)).1⟩

/-! ## Claim C4 -/

/-- C4 counterexample: a second `cfp_ingest` run at a later time against the
byte-identical source payload — the rebuilt document embeds the new
timestamp, so the on-disk file is rewritten and `last_updated` advances even
though the content did not change. -/
theorem c4_counterexample :
    cfp_ingest_commit (some (build_payload [] 1)) [] 2 = (build_payload [] 2, true) ∧
    build_payload [] 2 ≠ build_payload [] 1 := by
  constructor
  · rfl
  · decide

/-- C4 (amended): `cfp_ingest.main` skips the write only when the rebuilt
payload — timestamp included — serializes identically to the prior file, so a
rerun is a no-op only when its timestamp coincides with the stored one;
otherwise it rewrites and `last_updated` becomes the new build time; and
`run_dataset` stamps `last_updated` with the current run time on every write
to `cfp-data.json`, with no content comparison at all. -/
theorem c4_last_updated_stamping :
    (∀ (core : List RankEntry) (t : Int),
      cfp_ingest_commit (some (build_payload core t)) core t = (build_payload core t, false)) ∧
    (∀ (old : Option CfpPayload) (core : List RankEntry) (t : Int),
      old ≠ some (build_payload core t) →
      cfp_ingest_commit old core t = (build_payload core t, true)) ∧
    (∀ att (t : Int) (prior : JDoc) (ds : UDataset) (i : String) (d : List RankEntry),
      ds.enabled.getD false = true → HANDLERS_kinds.contains ds.kind = true →
      (ds.kind == "ncaaf_polls_html") = false →
      (attemptAll USource.id att (ds.primary_sources ++ ds.backup_sources)).2 = some (i, d) →
      ds.output.pathName = "cfp-data.json" →
      (run_dataset att t false prior ds).doc.last_updated = some t) := by
  refine ⟨?_, ?_, ?_⟩
  · intro core t
    simp [cfp_ingest_commit]
  · intro old core t h
    cases old with
    | none => rfl
    | some o =>
      show (if o = build_payload core t then (o, false) else (build_payload core t, true)) = _
      rw [if_neg]
      intro hh
      exact h (by rw [hh])
  · intro att t prior ds i d h1 h2 h3 h4 h5
    rw [run_dataset_single_success att t false prior ds i d h1 h2 h3 h4]
    simp only [Bool.false_eq_true, if_false]
    exact persistStamp_lu_cfp _ t _ h5

/-- C4 witness: the amended theorem applied concretely — an absent prior file
is written with the build time, and a successful `run_dataset` write stamps
the run time. -/
theorem c4_last_updated_stamping_witness :
    cfp_ingest_commit none [] 3 = (build_payload [] 3, true) ∧
    (run_dataset (fun _ => .ok []) 7 false ⟨[], none⟩
        ⟨"cfp", some true, "cfp_rankings_html", ⟨"cfp-data.json", "rankings"⟩, none,
         [⟨"s1"⟩], []⟩).doc.last_updated = some 7 :=
  ⟨c4_last_updated_stamping.2.1 none [] 3 (by decide),
   c4_last_updated_stamping.2.2 (fun _ => .ok []) 7 ⟨[], none⟩
     ⟨"cfp", some true, "cfp_rankings_html", ⟨"cfp-data.json", "rankings"⟩, none,
      [⟨"s1"⟩], []⟩ "s1" [] rfl rfl rfl rfl rfl⟩

/-! ## Claim C7 -/

/-- C7 counterexample: one enabled dataset with a known kind and a non-empty
source list — a valid configuration — whose only source raises: the dataset is
exhausted without throwing, yet the process exits 1, not 0. -/
theorem c7_counterexample :
    HANDLERS_kinds.contains "cfp_rankings_html" = true ∧
    universal_main (fun _ => .error "fetch failed") 0 false (fun _ => emptyJDoc)
      [⟨"cfp", some true, "cfp_rankings_html", ⟨"cfp-data.json", "rankings"⟩, none,
        [⟨"s1"⟩], []⟩] = 1 := by
  constructor <;> rfl

/-- C7 (amended): the exit code is 0 exactly when every dataset run returned
`True` — that is, each dataset is disabled, or has a known kind, a non-empty
source list and at least one source that produces data; a dataset exhausted
without throwing returns `False` and so forces exit code 1, exactly like an
invalid configuration; and in `ingest_runner.py` even a merely disabled sport
makes `run_for_sport` return `False`. -/
theorem c7_exit_code :
    (∀ att (t : Int) (dry : Bool) (prior : JDoc) (ds : UDataset),
      (run_dataset att t dry prior ds).ok = datasetOk att ds) ∧
    (∀ att (t : Int) (dry : Bool) (prior : String → JDoc) (datasets : List UDataset),
      universal_main att t dry prior datasets
        = if datasets.all (fun d => datasetOk att d) then 0 else 1) ∧
    (∀ (α : Type) (att : RSource → Except String α) (cfg : SportCfg),
      cfg.enabled.getD false = false → (run_for_sport att cfg).ok = false) := by
  refine ⟨?_, ?_, ?_⟩
  · intro att t dry prior ds
    exact run_dataset_ok_eq att t dry prior ds
  · intro att t dry prior datasets
    exact universal_main_eq att t dry prior datasets
  · intro α att cfg h
    unfold run_for_sport
    rw [h]
    rfl

/-- C7 witness: the amended theorem applied concretely — the exhausted dataset
of the counterexample yields exit code 1 through the `datasetOk`
characterization, and a disabled sport yields `False` from `run_for_sport`. -/
theorem c7_exit_code_witness :
    universal_main (fun _ => .error "fetch failed") 0 false (fun _ => emptyJDoc)
      [⟨"cfp", some true, "cfp_rankings_html", ⟨"cfp-data.json", "rankings"⟩, none,
        [⟨"s1"⟩], []⟩] = 1 ∧
    (run_for_sport (fun _ => (.ok () : Except String Unit))
        ⟨some false, some "out.json", [⟨"A", none, none⟩]⟩).ok = false :=
  ⟨(c7_exit_code.2.1 (fun _ => .error "fetch failed") 0 false (fun _ => emptyJDoc)
      [⟨"cfp", some true, "cfp_rankings_html", ⟨"cfp-data.json", "rankings"⟩, none,
        [⟨"s1"⟩], []⟩]).trans (by decide),
   c7_exit_code.2.2 Unit (fun _ => .ok ())
     ⟨some false, some "out.json", [⟨"A", none, none⟩]⟩ rfl⟩

/-! ## Claim C10: helper lemmas on the replacement machinery -/

theorem lb_ne_rb : lb ≠ rb := by decide

theorem contains_false_of_not_mem (l : List Char) (c : Char) (h : c ∉ l) :
    l.contains c = false := by
  cases hc : l.contains c
  · rfl
  · exact absurd (List.elem_iff.mp hc) h

theorem contains_true_of_mem (l : List Char) (c : Char) (h : c ∈ l) :
    l.contains c = true := List.elem_iff.mpr h

theorem replaceAllF_fuel (pat rep : List Char) :
    ∀ (f1 f2 : Nat) (l : List Char), l.length ≤ f1 → l.length ≤ f2 →
      replaceAllF pat rep f1 l = replaceAllF pat rep f2 l := by
  intro f1
  induction f1 with
  | zero =>
    intro f2 l h1 h2
    have hl : l = [] := List.eq_nil_of_length_eq_zero (Nat.le_zero.mp h1)
    subst hl
    cases f2 <;> rfl
  | succ f ih =>
    intro f2 l h1 h2
    cases l with
    | nil => cases f2 <;> rfl
    | cons x xs =>
      cases f2 with
      | zero => simp at h2
      | succ g =>
        have hxs1 : xs.length ≤ f := by
          simpa using Nat.succ_le_succ_iff.mp h1
        have hxs2 : xs.length ≤ g := by
          simpa using Nat.succ_le_succ_iff.mp h2
        have hdrop : (List.drop (pat.length - 1) xs).length ≤ xs.length := by
          rw [List.length_drop]
          omega
        simp only [replaceAllF]
        by_cases hp : pat ≠ [] ∧ pat.isPrefixOf (x :: xs)
        · rw [if_pos hp, if_pos hp]
          congr 1
          exact ih g (List.drop (pat.length - 1) xs)
            (le_trans hdrop hxs1) (le_trans hdrop hxs2)
        · rw [if_neg hp, if_neg hp]
          congr 1
          exact ih g xs hxs1 hxs2

theorem replaceAll_cons (pat rep : List Char) (x : Char) (xs : List Char) :
    replaceAll pat rep (x :: xs) =
      if pat ≠ [] ∧ pat.isPrefixOf (x :: xs) then
        rep ++ replaceAll pat rep (List.drop (pat.length - 1) xs)
      else x :: replaceAll pat rep xs := by
  show replaceAllF pat rep (x :: xs).length (x :: xs) = _
  simp only [List.length_cons, replaceAllF]
  have hdrop : (List.drop (pat.length - 1) xs).length ≤ xs.length := by
    rw [List.length_drop]
    omega
  by_cases hp : pat ≠ [] ∧ pat.isPrefixOf (x :: xs)
  · rw [if_pos hp, if_pos hp]
    congr 1
    exact replaceAllF_fuel pat rep xs.length _ _ hdrop le_rfl
  · rw [if_neg hp, if_neg hp]
    rfl

theorem replaceAll_append_lb_free (mid rep : List Char) (a t : List Char) (h : lb ∉ a) :
    replaceAll (lb :: mid) rep (a ++ t) = a ++ replaceAll (lb :: mid) rep t := by
  induction a with
  | nil => rfl
  | cons y ys ih =>
    have hy : y ≠ lb := fun hh => h (hh ▸ List.mem_cons_self y ys)
    rw [List.cons_append, replaceAll_cons, if_neg]
    · rw [ih (fun hm => h (List.mem_cons_of_mem y hm))]
      rfl
    · rintro ⟨-, hpre⟩
      have : (lb == y) = true ∧ mid.isPrefixOf (ys ++ t) = true := by
        simpa using hpre
      exact hy ((by simpa using this.1 : lb = y)).symm

theorem isPrefixOf_append_self (n : List Char) (b : Char) (t : List Char) :
    (n ++ [b]).isPrefixOf (n ++ b :: t) = true := by
  induction n with
  | nil => simp [List.isPrefixOf]
  | cons c ns ih => simp [List.isPrefixOf, ih]

theorem replaceAll_ph_match (n rep t : List Char) :
    replaceAll (lb :: (n ++ [rb])) rep (lb :: (n ++ rb :: t))
      = rep ++ replaceAll (lb :: (n ++ [rb])) rep t := by
  rw [replaceAll_cons, if_pos]
  · congr 1
    have hlen : (lb :: (n ++ [rb])).length - 1 = (n ++ [rb]).length := by simp
    rw [hlen, show n ++ rb :: t = (n ++ [rb]) ++ t by simp]
    exact congrArg _ (List.drop_left (n ++ [rb]) t)
  · exact ⟨by simp, by simp [List.isPrefixOf, isPrefixOf_append_self n rb t]⟩

theorem not_isPrefixOf_ph (n m t : List Char) (hn : rb ∉ n) (hm : rb ∉ m) (hne : n ≠ m) :
    ((n ++ [rb]).isPrefixOf (m ++ rb :: t)) = false := by
  induction n generalizing m with
  | nil =>
    cases m with
    | nil => exact absurd rfl hne
    | cons c ms =>
      have hc : (rb == c) = false := by
        have : c ≠ rb := fun hh => hm (hh ▸ List.mem_cons_self c ms)
        simpa using fun hh => this hh.symm
      simp [List.isPrefixOf, hc]
  | cons d ns ih =>
    cases m with
    | nil =>
      have hd : (d == rb) = false := by
        have : d ≠ rb := fun hh => hn (hh ▸ List.mem_cons_self d ns)
        simpa using this
      simp [List.isPrefixOf, hd]
    | cons c ms =>
      by_cases hdc : d = c
      · subst hdc
        have hrec := ih ms (fun hh => hn (List.mem_cons_of_mem d hh))
          (fun hh => hm (List.mem_cons_of_mem d hh))
          (fun hh => hne (by rw [hh]))
        simp [List.isPrefixOf, hrec]
      · have hb : (d == c) = false := by simpa using hdc
        simp [List.isPrefixOf, hb]

theorem replaceAll_ph_mismatch (n m rep t : List Char) (hn : rb ∉ n) (hm : rb ∉ m)
    (hmlb : lb ∉ m) (hne : n ≠ m) :
    replaceAll (lb :: (n ++ [rb])) rep (lb :: (m ++ rb :: t))
      = lb :: (m ++ rb :: replaceAll (lb :: (n ++ [rb])) rep t) := by
  rw [replaceAll_cons, if_neg]
  · have hfree : lb ∉ m ++ [rb] := by
      intro hh
      rcases List.mem_append.mp hh with h1 | h2
      · exact hmlb h1
      · exact lb_ne_rb (by simpa using h2)
    rw [show m ++ rb :: t = (m ++ [rb]) ++ t by simp,
        replaceAll_append_lb_free _ _ _ _ hfree]
    simp
  · rintro ⟨-, hpre⟩
    have h2 : ((n ++ [rb]).isPrefixOf (m ++ rb :: t)) = true := by
      simpa [List.isPrefixOf] using hpre
    rw [not_isPrefixOf_ph n m t hn hm hne] at h2
    cases h2

theorem splitOnCharAux_append_free (c : Char) (a t : List Char) (h : c ∉ a) :
    splitOnCharAux c (a ++ t)
      = (a ++ (splitOnCharAux c t).1, (splitOnCharAux c t).2) := by
  induction a with
  | nil => rfl
  | cons y ys ih =>
    have hy : ¬(y = c) := fun hh => h (hh ▸ List.mem_cons_self y ys)
    simp only [List.cons_append, splitOnCharAux, if_neg hy, List.append_eq,
      ih (fun hm => h (List.mem_cons_of_mem y hm))]

theorem splitOnCharAux_items (items : List (List Char × List Char))
    (hwf : ∀ it ∈ items, braceFree it.1 ∧ braceFree it.2) :
    splitOnCharAux lb ((items.map renderItem).flatten)
      = ([], items.map (fun it => it.1 ++ rb :: it.2)) := by
  induction items with
  | nil => rfl
  | cons it rest ih =>
    obtain ⟨h1, h2⟩ := hwf it (List.mem_cons_self it rest)
    have hfree : lb ∉ it.1 ++ rb :: it.2 := by
      intro hh
      rcases List.mem_append.mp hh with ha | hb
      · exact h1.1 ha
      · rcases List.mem_cons.mp hb with he | hc
        · exact lb_ne_rb he
        · exact h2.1 hc
    have ihr := ih (fun x hx => hwf x (List.mem_cons_of_mem it hx))
    simp only [List.map_cons, List.flatten_cons, renderItem, List.cons_append]
    simp only [splitOnCharAux, if_pos rfl]
    rw [splitOnCharAux_append_free lb _ _ hfree, ihr]
    simp

theorem splitOnChar_render (t : HeaderTemplate) (hwf : WfTemplate t) :
    splitOnChar lb (render t)
      = t.head :: t.items.map (fun it => it.1 ++ rb :: it.2) := by
  unfold splitOnChar render
  rw [splitOnCharAux_append_free lb t.head _ hwf.1.1,
      splitOnCharAux_items t.items (fun it hit => ⟨(hwf.2 it hit).2.1, (hwf.2 it hit).2.2⟩)]
  simp

theorem splitOnce_name (nm l : List Char) (h : rb ∉ nm) :
    splitOnce rb (nm ++ rb :: l) = (nm, l) := by
  induction nm with
  | nil => simp [splitOnce]
  | cons y ys ih =>
    have hy : ¬(y = rb) := fun hh => h (hh ▸ List.mem_cons_self y ys)
    simp only [List.cons_append, splitOnce, if_neg hy, List.append_eq,
      ih (fun hm => h (List.mem_cons_of_mem y hm))]

theorem renderM_nil_resolved (env : List Char → Option (List Char)) (t : HeaderTemplate) :
    renderM env [] t = render t := by
  unfold renderM render renderItemM
  congr 1

theorem renderM_all_resolved (env : List Char → Option (List Char))
    (resolved : List (List Char)) (t : HeaderTemplate)
    (h : ∀ it ∈ t.items, it.1 ∈ resolved) :
    renderM env resolved t = resolveTemplate env t := by
  unfold renderM resolveTemplate renderItemM
  congr 1
  apply congrArg
  apply List.map_eq_map_iff.mpr
  intro it hit
  simp [h it hit]

theorem renderM_congr (env : List Char → Option (List Char))
    (r1 r2 : List (List Char)) (t : HeaderTemplate)
    (h : ∀ nm, nm ∈ r1 ↔ nm ∈ r2) :
    renderM env r1 t = renderM env r2 t := by
  unfold renderM renderItemM
  congr 1
  apply congrArg
  apply List.map_eq_map_iff.mpr
  intro it _
  by_cases hin : it.1 ∈ r1
  · rw [if_pos hin, if_pos ((h it.1).mp hin)]
  · rw [if_neg hin, if_neg (fun hh => hin ((h it.1).mpr hh))]

theorem replaceAll_itemsM (env : List Char → Option (List Char))
    (henv : ∀ nm, braceFree (getenvD env nm))
    (n : List Char) (hnb : braceFree n)
    (resolved : List (List Char))
    (items : List (List Char × List Char))
    (hwf : ∀ it ∈ items, it.1 ≠ [] ∧ braceFree it.1 ∧ braceFree it.2) :
    replaceAll (lb :: (n ++ [rb])) (getenvD env n)
        ((items.map (renderItemM env resolved)).flatten)
      = (items.map (renderItemM env (n :: resolved))).flatten := by
  induction items with
  | nil => rfl
  | cons it rest ih =>
    obtain ⟨hit1, hit2, hit3⟩ := hwf it (List.mem_cons_self it rest)
    have ihr := ih (fun x hx => hwf x (List.mem_cons_of_mem it hx))
    simp only [List.map_cons, List.flatten_cons]
    by_cases hres : it.1 ∈ resolved
    · have hresn : it.1 ∈ n :: resolved := List.mem_cons_of_mem n hres
      rw [show renderItemM env resolved it = getenvD env it.1 ++ it.2 from by
            unfold renderItemM; rw [if_pos hres],
          show renderItemM env (n :: resolved) it = getenvD env it.1 ++ it.2 from by
            unfold renderItemM; rw [if_pos hresn]]
      have hchunk : lb ∉ getenvD env it.1 ++ it.2 := by
        intro hh
        rcases List.mem_append.mp hh with ha | hb
        · exact (henv it.1).1 ha
        · exact hit3.1 hb
      rw [replaceAll_append_lb_free _ _ _ _ hchunk, ihr]
    · by_cases heq : it.1 = n
      · rw [show renderItemM env resolved it = lb :: (it.1 ++ rb :: it.2) from by
              unfold renderItemM renderItem; rw [if_neg hres],
            show renderItemM env (n :: resolved) it = getenvD env it.1 ++ it.2 from by
              unfold renderItemM
              rw [if_pos (by rw [heq]; exact List.mem_cons_self n resolved)]]
        subst heq
        rw [List.cons_append,
            show (it.1 ++ rb :: it.2) ++ (rest.map (renderItemM env resolved)).flatten
              = it.1 ++ rb :: (it.2 ++ (rest.map (renderItemM env resolved)).flatten) from
              by simp]
        rw [replaceAll_ph_match,
            replaceAll_append_lb_free _ _ it.2 _ hit3.1, ihr]
        simp
      · rw [show renderItemM env resolved it = lb :: (it.1 ++ rb :: it.2) from by
              unfold renderItemM renderItem; rw [if_neg hres],
            show renderItemM env (n :: resolved) it = lb :: (it.1 ++ rb :: it.2) from by
              unfold renderItemM renderItem
              rw [if_neg]
              intro hh
              rcases List.mem_cons.mp hh with he | hr
              · exact heq he
              · exact hres hr]
        rw [List.cons_append,
            show (it.1 ++ rb :: it.2) ++ (rest.map (renderItemM env resolved)).flatten
              = it.1 ++ rb :: (it.2 ++ (rest.map (renderItemM env resolved)).flatten) from
              by simp]
        rw [replaceAll_ph_mismatch n it.1 _ _ hnb.2 hit2.2 hit2.1 (fun hh => heq hh.symm),
            replaceAll_append_lb_free _ _ it.2 _ hit3.1, ihr]
        simp

theorem replaceAll_renderM (env : List Char → Option (List Char))
    (henv : ∀ nm, braceFree (getenvD env nm))
    (n : List Char) (hnb : braceFree n)
    (resolved : List (List Char)) (t : HeaderTemplate) (hwf : WfTemplate t) :
    replaceAll (lb :: (n ++ [rb])) (getenvD env n) (renderM env resolved t)
      = renderM env (n :: resolved) t := by
  unfold renderM
  rw [replaceAll_append_lb_free _ _ t.head _ hwf.1.1,
      replaceAll_itemsM env henv n hnb resolved t.items hwf.2]

theorem foldl_envStep_items (env : List Char → Option (List Char))
    (henv : ∀ nm, braceFree (getenvD env nm)) (t : HeaderTemplate) (hwf : WfTemplate t) :
    ∀ (its : List (List Char × List Char)) (resolved : List (List Char)),
      (∀ it ∈ its, it.1 ≠ [] ∧ braceFree it.1 ∧ braceFree it.2) →
      (its.map (fun it => it.1 ++ rb :: it.2)).foldl (envStep env) (renderM env resolved t)
        = renderM env (its.map Prod.fst ++ resolved) t := by
  intro its
  induction its with
  | nil =>
    intro resolved _
    simp only [List.map_nil, List.foldl_nil, List.nil_append]
  | cons it rest ih =>
    intro resolved hwfl
    obtain ⟨hit1, hit2, hit3⟩ := hwfl it (List.mem_cons_self it rest)
    simp only [List.map_cons, List.foldl_cons]
    have hstep : envStep env (renderM env resolved t) (it.1 ++ rb :: it.2)
        = renderM env (it.1 :: resolved) t := by
      unfold envStep
      rw [contains_true_of_mem (it.1 ++ rb :: it.2) rb (by simp),
          splitOnce_name it.1 it.2 hit2.2]
      simp only [if_true]
      rw [if_pos hit1]
      exact replaceAll_renderM env henv it.1 hit2 resolved t hwf
    rw [hstep, ih (it.1 :: resolved) (fun x hx => hwfl x (List.mem_cons_of_mem it hx))]
    apply renderM_congr
    intro nm
    simp only [List.mem_append, List.mem_cons, List.map_cons]
    tauto

theorem applyEnvValue_render (env : List Char → Option (List Char))
    (henv : ∀ nm, braceFree (getenvD env nm))
    (t : HeaderTemplate) (hwf : WfTemplate t) :
    applyEnvValue env (render t) = resolveTemplate env t := by
  rcases hitems : t.items with _ | ⟨it0, rest0⟩
  · have hrender : render t = t.head := by
      unfold render
      rw [hitems]
      simp
    have hlb : (render t).contains lb = false := by
      rw [hrender]
      exact contains_false_of_not_mem _ _ hwf.1.1
    unfold applyEnvValue
    rw [hlb]
    simp only [Bool.false_and, Bool.false_eq_true, if_false]
    rw [hrender]
    unfold resolveTemplate
    rw [hitems]
    simp
  · have hit0 : it0 ∈ t.items := by
      rw [hitems]
      exact List.mem_cons_self it0 rest0
    have hlb : (render t).contains lb = true := by
      apply contains_true_of_mem
      unfold render
      apply List.mem_append.mpr
      right
      exact List.mem_flatten.mpr
        ⟨renderItem it0, List.mem_map_of_mem renderItem hit0, List.mem_cons_self lb _⟩
    have hrb : (render t).contains rb = true := by
      apply contains_true_of_mem
      unfold render
      apply List.mem_append.mpr
      right
      refine List.mem_flatten.mpr ⟨renderItem it0, List.mem_map_of_mem renderItem hit0, ?_⟩
      unfold renderItem
      exact List.mem_cons_of_mem lb (List.mem_append.mpr (Or.inr (List.mem_cons_self rb _)))
    unfold applyEnvValue
    rw [hlb, hrb]
    simp only [Bool.and_self, if_true]
    rw [splitOnChar_render t hwf]
    simp only [List.foldl_cons]
    have hhead : envStep env (render t) t.head = render t := by
      unfold envStep
      rw [contains_false_of_not_mem _ _ hwf.1.2]
      simp
    rw [hhead, show render t = renderM env [] t from (renderM_nil_resolved env t).symm,
        foldl_envStep_items env henv t hwf t.items [] hwf.2]
    apply renderM_all_resolved
    intro it hit
    exact List.mem_append.mpr (Or.inl (List.mem_map_of_mem Prod.fst hit))

/-! ## Claim C10 -/

/-- C10: in header resolution, for every header value presented as a
placeholder template (brace-free literals, non-empty brace-free names) and
every environment with brace-free values, `_apply_env_in_headers` leaves every
key unchanged and rewrites every value to its resolution: each `\x7bNAME\x7d`
placeholder replaced by the value of environment variable NAME — the empty
string when the variable is unset, never an error and never a surviving
placeholder; values with no placeholder (no `\x7b` at all) are returned
unchanged. -/
theorem c10_header_env_resolution :
    (∀ (env : List Char → Option (List Char)),
      (∀ nm, braceFree (getenvD env nm)) →
      ∀ (headers : List (String × HeaderTemplate)),
      (∀ kv ∈ headers, WfTemplate kv.2) →
      apply_env_in_headers env (headers.map (fun kv => (kv.1, render kv.2)))
        = headers.map (fun kv => (kv.1, resolveTemplate env kv.2))) ∧
    (∀ (env : List Char → Option (List Char)) (v : List Char),
      v.contains lb = false → applyEnvValue env v = v) := by
  constructor
  · intro env henv headers hwf
    unfold apply_env_in_headers
    rw [List.map_map]
    apply List.map_eq_map_iff.mpr
    intro kv hkv
    show (kv.1, applyEnvValue env (render kv.2)) = (kv.1, resolveTemplate env kv.2)
    rw [applyEnvValue_render env henv kv.2 (hwf kv hkv)]
  · intro env v h
    unfold applyEnvValue
    rw [h]
    rfl

/-- C10 witness: the theorem applied to a concrete environment (`TOKEN` set,
`MISSING` unset) and three headers — a set placeholder resolves to the secret,
an unset placeholder resolves to the empty string, and a placeholder-free
value is unchanged. -/
theorem c10_header_env_resolution_witness :
    apply_env_in_headers
        (fun nm => if nm = "TOKEN".data then some "s3cr3t".data else none)
        ([("Authorization", (⟨"Bearer ".data, [("TOKEN".data, [])]⟩ : HeaderTemplate)),
          ("X-Api", ⟨[], [("MISSING".data, "-suffix".data)]⟩),
          ("Accept", ⟨"application/json".data, []⟩)].map
          (fun kv => (kv.1, render kv.2)))
      = [("Authorization", "Bearer s3cr3t".data),
         ("X-Api", "-suffix".data),
         ("Accept", "application/json".data)] := by
  have h := c10_header_env_resolution.1
    (fun nm => if nm = "TOKEN".data then some "s3cr3t".data else none)
    (fun nm => by
      show braceFree ((if nm = "TOKEN".data then some "s3cr3t".data else none).getD [])
      by_cases hnm : nm = "TOKEN".data
      · rw [if_pos hnm]
        decide
      · rw [if_neg hnm]
        decide)
    [("Authorization", (⟨"Bearer ".data, [("TOKEN".data, [])]⟩ : HeaderTemplate)),
     ("X-Api", ⟨[], [("MISSING".data, "-suffix".data)]⟩),
     ("Accept", ⟨"application/json".data, []⟩)]
    (by decide)
  exact h.trans (by decide)

end StegSite
